import Mathlib

/-!
Shallow embedding of `uncompyle3/scanner/scanner.py` (the `Scanner` class)
and proofs about the claims of the specification.

The byte buffer `co_code` is modelled as `List Nat` (a Python `bytes` object,
each element below 256; none of the statements proved here needs the bound).
Python list indexing `l[i]` on in-range indices is modelled with `List.getD`;
out-of-range indices raise in Python, the model totalises them with a default,
and every theorem below only constrains in-range behaviour.
-/

namespace Uncompyle3

/-! ### Opcode metadata.
Modelled from the spec: the "opcode metadata collaborator" of spec section 6
(the repository's bundled `dis` module, which is not under `src/`): the
Python 3.2 opcode numbers, the operand-category membership sets, the
`HAVE_ARGUMENT` threshold and the comparison-operator table. -/

def POP_TOP : Nat := 1
def ROT_TWO : Nat := 2
def STORE_SUBSCR : Nat := 60
def DELETE_SUBSCR : Nat := 61
def PRINT_EXPR : Nat := 70
def BREAK_LOOP : Nat := 80
def RETURN_VALUE : Nat := 83
def POP_BLOCK : Nat := 87
def END_FINALLY : Nat := 88
def HAVE_ARGUMENT : Nat := 90
def STORE_NAME : Nat := 90
def DELETE_NAME : Nat := 91
def UNPACK_SEQUENCE : Nat := 92
def FOR_ITER : Nat := 93
def STORE_ATTR : Nat := 95
def DELETE_ATTR : Nat := 96
def STORE_GLOBAL : Nat := 97
def DELETE_GLOBAL : Nat := 98
def LOAD_CONST : Nat := 100
def COMPARE_OP : Nat := 107
def JUMP_FORWARD : Nat := 110
def JUMP_IF_FALSE_OR_POP : Nat := 111
def JUMP_IF_TRUE_OR_POP : Nat := 112
def JUMP_ABSOLUTE : Nat := 113
def POP_JUMP_IF_FALSE : Nat := 114
def POP_JUMP_IF_TRUE : Nat := 115
def CONTINUE_LOOP : Nat := 119
def SETUP_LOOP : Nat := 120
def SETUP_EXCEPT : Nat := 121
def SETUP_FINALLY : Nat := 122
def LOAD_FAST : Nat := 124
def STORE_FAST : Nat := 125
def DELETE_FAST : Nat := 126
def RAISE_VARARGS : Nat := 130
def CALL_FUNCTION : Nat := 131
def LOAD_CLOSURE : Nat := 135
def LOAD_DEREF : Nat := 136
def STORE_DEREF : Nat := 137
def DELETE_DEREF : Nat := 138
def SETUP_WITH : Nat := 143
def EXTENDED_ARG : Nat := 144
def LIST_APPEND : Nat := 145

def hasconst : List Nat := [100]
def hasname : List Nat := [90, 91, 95, 96, 97, 98, 101, 106, 108, 109, 116]
def hasjrel : List Nat := [93, 110, 120, 121, 122, 143]
def hasjabs : List Nat := [111, 112, 113, 114, 115, 119]
def haslocal : List Nat := [124, 125, 126]
def hascompare : List Nat := [107]
def hasfree : List Nat := [135, 136, 137, 138]

def cmp_op : List String :=
  ["<", "<=", "==", "!=", ">", ">=", "in", "not in", "is", "is not",
   "exception match", "BAD"]

/-- Modelled from the spec: `dis.opname` (the mnemonic table of the opcode
metadata collaborator) for the opcodes the scanner mentions. -/
def opname (op : Nat) : String :=
  if op = 1 then "POP_TOP"
  else if op = 2 then "ROT_TWO"
  else if op = 60 then "STORE_SUBSCR"
  else if op = 61 then "DELETE_SUBSCR"
  else if op = 70 then "PRINT_EXPR"
  else if op = 80 then "BREAK_LOOP"
  else if op = 83 then "RETURN_VALUE"
  else if op = 87 then "POP_BLOCK"
  else if op = 88 then "END_FINALLY"
  else if op = 90 then "STORE_NAME"
  else if op = 91 then "DELETE_NAME"
  else if op = 92 then "UNPACK_SEQUENCE"
  else if op = 93 then "FOR_ITER"
  else if op = 95 then "STORE_ATTR"
  else if op = 96 then "DELETE_ATTR"
  else if op = 97 then "STORE_GLOBAL"
  else if op = 98 then "DELETE_GLOBAL"
  else if op = 100 then "LOAD_CONST"
  else if op = 107 then "COMPARE_OP"
  else if op = 110 then "JUMP_FORWARD"
  else if op = 111 then "JUMP_IF_FALSE_OR_POP"
  else if op = 112 then "JUMP_IF_TRUE_OR_POP"
  else if op = 113 then "JUMP_ABSOLUTE"
  else if op = 114 then "POP_JUMP_IF_FALSE"
  else if op = 115 then "POP_JUMP_IF_TRUE"
  else if op = 119 then "CONTINUE_LOOP"
  else if op = 120 then "SETUP_LOOP"
  else if op = 121 then "SETUP_EXCEPT"
  else if op = 122 then "SETUP_FINALLY"
  else if op = 124 then "LOAD_FAST"
  else if op = 125 then "STORE_FAST"
  else if op = 126 then "DELETE_FAST"
  else if op = 130 then "RAISE_VARARGS"
  else if op = 131 then "CALL_FUNCTION"
  else if op = 135 then "LOAD_CLOSURE"
  else if op = 136 then "LOAD_DEREF"
  else if op = 137 then "STORE_DEREF"
  else if op = 138 then "DELETE_DEREF"
  else if op = 143 then "SETUP_WITH"
  else if op = 144 then "EXTENDED_ARG"
  else if op = 145 then "LIST_APPEND"
  else "OP_UNKNOWN"

/-! ### Decimal rendering of naturals.
Models Python `repr(n)` / `str.format` on a non-negative integer: the decimal
digit string.  Written with structural fuel so that the kernel can evaluate it. -/

def natDigits : Nat → Nat → List Char
  | 0, _ => []
  | fuel+1, n =>
    if n < 10 then [Nat.digitChar n]
    else natDigits fuel (n / 10) ++ [Nat.digitChar (n % 10)]

def natStr (n : Nat) : String := ⟨natDigits (n + 1) n⟩

/-! ### Scanner.op_size and Scanner.op_range -/

/-- Translation of `Scanner.op_size`: 1 byte below the operand threshold,
3 bytes (opcode plus a 2-byte operand) at or above it. -/
def op_size (op : Nat) : Nat :=
  if op < HAVE_ARGUMENT then 1 else 3

/-- Fuel-driven helper for `op_range`; the fuel `stop - start` is enough
because `op_size` is at least 1, and structural recursion keeps the
function kernel-evaluable. -/
def opRangeAux (code : List Nat) : Nat → Nat → Nat → List Nat
  | 0, _, _ => []
  | fuel+1, start, stop =>
    if start < stop then
      start :: opRangeAux code fuel (start + op_size (code.getD start 0)) stop
    else []

/-- Translation of `Scanner.op_range`: the instruction-start offsets in
`[start, stop)`, each step skipping the instruction's operand bytes. -/
def opRange (code : List Nat) (start stop : Nat) : List Nat :=
  opRangeAux code (stop - start) start stop

theorem op_size_pos (op : Nat) : 0 < op_size op := by
  unfold op_size; split <;> omega

theorem opRangeAux_fuel (code : List Nat) :
    ∀ fuel₁ fuel₂ start stop, stop - start ≤ fuel₁ → stop - start ≤ fuel₂ →
      opRangeAux code fuel₁ start stop = opRangeAux code fuel₂ start stop := by
  intro fuel₁
  induction fuel₁ with
  | zero =>
    intro fuel₂ start stop h₁ h₂
    cases fuel₂ with
    | zero => rfl
    | succ f =>
      simp only [opRangeAux]
      have : ¬ start < stop := by omega
      simp [this]
  | succ f ih =>
    intro fuel₂ start stop h₁ h₂
    cases fuel₂ with
    | zero =>
      simp only [opRangeAux]
      have : ¬ start < stop := by omega
      simp [this]
    | succ g =>
      simp only [opRangeAux]
      by_cases h : start < stop
      · simp only [h, if_true]
        have hs := op_size_pos (code.getD start 0)
        have := ih g (start + op_size (code.getD start 0)) stop (by omega) (by omega)
        rw [this]
      · simp [h]

/-- Unfolding equation for `opRange`, recovering the source loop shape. -/
theorem opRange_eq (code : List Nat) (start stop : Nat) :
    opRange code start stop =
      if start < stop then
        start :: opRange code (start + op_size (code.getD start 0)) stop
      else [] := by
  unfold opRange
  by_cases h : start < stop
  · have h1 : stop - start = (stop - start - 1) + 1 := by omega
    rw [h1]
    simp only [opRangeAux, h, if_true]
    have hs := op_size_pos (code.getD start 0)
    have := opRangeAux_fuel code (stop - start - 1)
      (stop - (start + op_size (code.getD start 0)))
      (start + op_size (code.getD start 0)) stop (by omega) (by omega)
    rw [this]
  · cases hz : stop - start with
    | zero => simp [opRangeAux, h]
    | succ f => omega

/-- Every member of `op_range start stop` lies in `[start, stop)`. -/
theorem opRange_mem_bounds (code : List Nat) :
    ∀ stop start s, s ∈ opRange code start stop → start ≤ s ∧ s < stop := by
  intro stop
  have main : ∀ n start, stop - start = n →
      ∀ s, s ∈ opRange code start stop → start ≤ s ∧ s < stop := by
    intro n
    induction n using Nat.strong_induction_on with
    | _ n ih =>
      intro start hn s hs
      rw [opRange_eq] at hs
      by_cases h : start < stop
      · simp only [h, if_true, List.mem_cons] at hs
        rcases hs with rfl | hs
        · omega
        · have hsz := op_size_pos (code.getD start 0)
          have := ih (stop - (start + op_size (code.getD start 0))) (by omega)
            (start + op_size (code.getD start 0)) rfl s hs
          omega
      · simp [h] at hs
  intro start s hs
  exact main (stop - start) start rfl s hs

/-! ### Scanner.build_lines_data -/

/-- The per-offset line record: current line number and the offset at which
the next source line begins (`LineTuple` in the source). -/
structure LineTuple where
  l_no : Nat
  next : Nat
deriving DecidableEq, Repr

instance : Inhabited LineTuple := ⟨⟨0, 0⟩⟩

/-- The inner loop of `build_lines_data` over `linestarts[1:]`: returns the
accumulated `lines` entries together with the final `offset` and
`prev_line_no`.  `List.replicate (so - offset)` models the
`while offset < start_offset` fill (empty when `so ≤ offset`, exactly as the
Python loop body never runs then). -/
def linesLoop : Nat → Nat → List (Nat × Nat) → List LineTuple × Nat × Nat
  | offset, prev, [] => ([], offset, prev)
  | offset, prev, (so, ln) :: rest =>
    let filled := List.replicate (so - offset) (LineTuple.mk prev so)
    let r := linesLoop (max offset so) ln rest
    (filled ++ r.1, r.2)

/-- Translation of `Scanner.build_lines_data`.  The sparse breakpoint list
`linestarts` (built by the external `dis.findlinestarts`) and the code length
are taken as inputs; the result is the `self.lines` table.  An empty
breakpoint list raises in Python (`linestarts[0]`); the model returns `[]`
there and no theorem below constrains that case. -/
def build_lines_data (codelen : Nat) (linestarts : List (Nat × Nat)) :
    List LineTuple :=
  match linestarts with
  | [] => []
  | (_, l0) :: rest =>
    let r := linesLoop 0 l0 rest
    r.1 ++ List.replicate (codelen - r.2.1) (LineTuple.mk r.2.2 codelen)

/-! ### Scanner.build_prev_op -/

/-- Translation of `Scanner.build_prev_op`: start from `[0]`, then for every
instruction append its start offset once per byte the instruction occupies. -/
def build_prev_op (code : List Nat) : List Nat :=
  [0] ++ (opRange code 0 code.length).flatMap
    (fun offset => List.replicate (op_size (code.getD offset 0)) offset)

/-! ### Scanner.get_target and Scanner.restrict_to_parent -/

/-- Translation of `Scanner.get_target`: decode the 2-byte little-endian
operand; relative jumps are based at `offset + 3`. -/
def get_target (code : List Nat) (offset : Nat) : Nat :=
  let op := code.getD offset 0
  let target := code.getD (offset + 1) 0 + code.getD (offset + 2) 0 * 256
  if op ∈ hasjrel then target + offset + 3 else target

/-- Translation of `Scanner.restrict_to_parent` with the parent's bounds
passed explicitly: keep `target` if strictly inside `(pstart, pend)`,
otherwise replace it by `pend`. -/
def restrict_to_parent (target pstart pend : Nat) : Nat :=
  if pstart < target ∧ target < pend then target else pend

/-! ### Scanner.all_instr, Scanner.last_instr, Scanner.rem_or,
Scanner.remove_mid_line_ifs -/

/-- Translation of `Scanner.all_instr`: offsets in `[start, stop)` whose
opcode is in `instr`, optionally filtered by resolved destination (equality,
or at-or-beyond when `include_beyond_target` is set). -/
def all_instr (code : List Nat) (start stop : Nat) (instr : List Nat)
    (target : Option Nat) (include_beyond_target : Bool) : List Nat :=
  (opRange code start stop).filter (fun offset =>
    decide (code.getD offset 0 ∈ instr) &&
      (match target with
       | none => true
       | some t =>
         let dest := get_target code offset
         (include_beyond_target && decide (t ≤ dest)) || decide (dest = t)))

/-- Translation of `Scanner.last_instr`: the last matching offset, or with a
requested target the offset whose destination is closest to it (ties to the
later offset); `none` when the range is out of bounds or nothing matches. -/
def last_instr (code : List Nat) (start stop : Nat) (instr : List Nat)
    (target : Option Nat) (exact : Bool) : Option Nat :=
  if ¬ stop ≤ code.length then none
  else
    ((opRange code start stop).foldl
      (fun (acc : Option Nat × Nat) offset =>
        if code.getD offset 0 ∈ instr then
          match target with
          | none => (some offset, acc.2)
          | some t =>
            let dest := get_target code offset
            if dest = t then (some offset, 0)
            else if ¬ exact then
              let nd := max t dest - min t dest
              if nd ≤ acc.2 then (some offset, nd) else acc
            else acc
        else acc)
      (none, code.length)).1

/-- Translation of `Scanner.rem_or`: matching offsets that are not strictly
inside any `POP_JUMP_IF_TRUE` jump of the range.  Python's
`get_target(pjit_offset) - 3` may go negative and then excludes nothing; the
truncated `Nat` subtraction gives 0 there and also excludes nothing. -/
def rem_or (code : List Nat) (start stop : Nat) (instr : List Nat)
    (target : Option Nat) (include_beyond_target : Bool) : List Nat :=
  let instr_offsets := all_instr code start stop instr target include_beyond_target
  let pjit_offsets := all_instr code start stop [POP_JUMP_IF_TRUE] none false
  pjit_offsets.foldl
    (fun ios pjit_offset =>
      let pjit_tgt := get_target code pjit_offset - 3
      ios.filter (fun io => io ≤ pjit_offset ∨ pjit_tgt ≤ io))
    instr_offsets

/-- Translation of `Scanner.remove_mid_line_ifs`: drop offsets sitting
mid-line, i.e. on the same line as the following instruction when the line's
last instruction is itself a conditional pop-jump. -/
def remove_mid_line_ifs (code : List Nat) (lines : List LineTuple)
    (prev_op : List Nat) (ifs : List Nat) : List Nat :=
  ifs.filter (fun i =>
    ¬ ((lines.getD i default).l_no = (lines.getD (i + 3) default).l_no ∧
       (code.getD (prev_op.getD ((lines.getD i default).next) 0) 0
          = POP_JUMP_IF_TRUE ∨
        code.getD (prev_op.getD ((lines.getD i default).next) 0) 0
          = POP_JUMP_IF_FALSE)))

/-! ### Scanner.find_new_ifs -/

/-- The stop condition of the inner scan of `find_new_ifs`: some instruction
in `op_range(offset, target)` is a cross-line `JUMP_FORWARD` or a backward
`JUMP_ABSOLUTE`.  The source sets a flag and breaks at the first such
instruction; only the existence is observable. -/
def new_if_stop (code : List Nat) (lines : List LineTuple)
    (offset target : Nat) : Bool :=
  (opRange code offset target).any (fun inner_offset =>
    let inner_op := code.getD inner_offset 0
    if inner_op = JUMP_FORWARD then
      decide ((lines.getD (get_target code inner_offset) default).l_no ≠
        (lines.getD inner_offset default).l_no)
    else if inner_op = JUMP_ABSOLUTE then
      decide (get_target code inner_offset < offset)
    else false)

/-- Translation of `Scanner.find_new_ifs`: the `new_ifs` table as an
association list in insertion (offset) order. -/
def find_new_ifs (code : List Nat) (lines : List LineTuple) :
    List (Nat × Nat) :=
  (opRange code 0 code.length).filterMap (fun offset =>
    let op := code.getD offset 0
    if op = POP_JUMP_IF_FALSE ∨ op = POP_JUMP_IF_TRUE then
      let target := get_target code offset
      if (lines.getD offset default).l_no = (lines.getD target default).l_no
      then none
      else if new_if_stop code lines offset target then none
      else some (offset, target)
    else none)

/-! ### Scanner.build_statement_indices -/

def statement_opcodes : List Nat :=
  [SETUP_LOOP, BREAK_LOOP, CONTINUE_LOOP,
   SETUP_FINALLY, END_FINALLY, SETUP_EXCEPT, SETUP_WITH,
   POP_BLOCK, STORE_FAST, DELETE_FAST, STORE_DEREF,
   STORE_GLOBAL, DELETE_GLOBAL, STORE_NAME, DELETE_NAME,
   STORE_ATTR, DELETE_ATTR, STORE_SUBSCR, DELETE_SUBSCR,
   RETURN_VALUE, RAISE_VARARGS, POP_TOP, PRINT_EXPR,
   JUMP_ABSOLUTE]

def statement_opcode_sequences : List (List Nat) :=
  [[POP_JUMP_IF_FALSE, JUMP_FORWARD], [POP_JUMP_IF_FALSE, JUMP_ABSOLUTE],
   [POP_JUMP_IF_TRUE, JUMP_FORWARD], [POP_JUMP_IF_TRUE, JUMP_ABSOLUTE]]

def designator_ops : List Nat :=
  [STORE_FAST, STORE_NAME, STORE_GLOBAL, STORE_DEREF, STORE_ATTR,
   STORE_SUBSCR, UNPACK_SEQUENCE, JUMP_ABSOLUTE]

/-- Python `set.add` on a duplicate-free list. -/
def setAdd (l : List Nat) (x : Nat) : List Nat :=
  if x ∈ l then l else l ++ [x]

/-- Ascending insertion used by `sortNat` (Python `sorted`). -/
def insertSorted (x : Nat) : List Nat → List Nat
  | [] => [x]
  | y :: ys => if x ≤ y then x :: y :: ys else y :: insertSorted x ys

/-- Python `sorted` on a list of naturals (insertion sort, kernel-evaluable). -/
def sortNat (l : List Nat) : List Nat := l.foldr insertSorted []

/-- The inner scan of the statement-sequence detection: match a consecutive
opcode sequence starting at `i`, returning the offset just past it. -/
def seq_matches (code : List Nat) : Nat → List Nat → Option Nat
  | i, [] => some i
  | i, elem :: rest =>
    if code.getD i 0 = elem then
      seq_matches code (i + op_size (code.getD i 0)) rest
    else none

/-- Fuel-driven rewind loop `while pred(code[j]): j = prev_op[j]`.  For a
genuine prev-op table `prev_op[j] < j` whenever `j > 0`, so fuel `j + 1`
replays the source loop exactly; on degenerate tables where the source loop
would not terminate the model stops when the fuel runs out. -/
def rewind_while (code prev_op : List Nat) (pred : Nat → Bool) :
    Nat → Nat → Nat
  | 0, j => j
  | fuel+1, j =>
    if pred (code.getD j 0) then
      rewind_while code prev_op pred fuel (prev_op.getD j 0)
    else j

/-- Python list indexing with a possibly negative index (only `-1` is ever
used by the source, via `last_stmt_offset = -1`): a negative index counts
from the end of the list. -/
def lineAt (lines : List LineTuple) (i : Int) : LineTuple :=
  if i < 0 then lines.getD (lines.length - (-i).toNat) default
  else lines.getD i.toNat default

/-- Mutable state of the statement-filtering loop of
`build_statement_indices`: the statement set, the `next_stmt` list under
construction, the previous retained statement offset (`-1` initially) and
the fill cursor `i`. -/
structure StmtState where
  stmts : List Nat
  next_stmt : List Nat
  last : Int
  i : Nat
deriving DecidableEq, Repr

/-- One retained statement: extend `next_stmt` and advance the cursor. -/
def stmt_keep (st : StmtState) (so : Nat) : StmtState :=
  { st with next_stmt := st.next_stmt ++ List.replicate (so - st.i) so,
            last := (so : Int), i := so }

/-- The statement-filtering loop of `build_statement_indices` over the
sorted statement-offset list. -/
def stmt_loop (code : List Nat) (lines : List LineTuple) (prev_op : List Nat)
    (pass_stmts : List Nat) : StmtState → List Nat → StmtState
  | st, [] => st
  | st, so :: rest =>
    let st' :=
      if code.getD so 0 = JUMP_ABSOLUTE ∧ so ∉ pass_stmts then
        let target := get_target code so
        if target > so ∨ (lineAt lines st.last).l_no =
            (lines.getD so default).l_no then
          { st with stmts := st.stmts.erase so }
        else
          let j := rewind_while code prev_op (fun op => decide (op = JUMP_ABSOLUTE))
            (prev_op.getD so 0 + 1) (prev_op.getD so 0)
          if code.getD j 0 = LIST_APPEND then
            { st with stmts := st.stmts.erase so }
          else stmt_keep st so
      else if code.getD so 0 = POP_TOP ∧
          code.getD (prev_op.getD so 0) 0 = ROT_TWO then
        { st with stmts := st.stmts.erase so }
      else if code.getD so 0 ∈ designator_ops then
        let j := rewind_while code prev_op (fun op => decide (op ∈ designator_ops))
          (prev_op.getD so 0 + 1) (prev_op.getD so 0)
        if code.getD j 0 = FOR_ITER then
          { st with stmts := st.stmts.erase so }
        else stmt_keep st so
      else stmt_keep st so
    stmt_loop code lines prev_op pass_stmts st' rest

/-- Translation of `Scanner.build_statement_indices`: returns the statement
set `self.stmts` and the `self.next_stmt` list-map. -/
def build_statement_indices (code : List Nat) (lines : List LineTuple)
    (prev_op : List Nat) : List Nat × List Nat :=
  let codelen := code.length
  let prelim := all_instr code 0 codelen statement_opcodes none false
  let seqStmts := statement_opcode_sequences.flatMap (fun sequence =>
    (opRange code 0 (codelen - (sequence.length + 1))).filterMap (fun i =>
      (seq_matches code i sequence).map (fun fi => prev_op.getD fi 0)))
  let stmts0 := seqStmts.foldl setAdd prelim
  let pass_stmts := seqStmts
  let stmt_offset_list := if pass_stmts ≠ [] then sortNat stmts0 else prelim
  let final := stmt_loop code lines prev_op pass_stmts
    ⟨stmts0, [], -1, 0⟩ stmt_offset_list
  let next_stmt := final.next_stmt ++
    List.replicate (codelen - final.next_stmt.length) codelen
  (final.stmts, next_stmt)

/-! ### Scanner.detect_structure -/

/-- One discovered region: a dict with keys type, start and end in the
source (the end field is called `stop` here). -/
structure Struct where
  kind : String
  start : Nat
  stop : Nat
deriving DecidableEq, Repr

/-- The mutable analysis state of the jump-target pass: the region list, the
fixed-jump table (association list, most recent binding first) and the two
offset sets filled by `detect_structure`. -/
structure ScanState where
  structs : List Struct
  fixed_jumps : List (Nat × Nat)
  not_continue : List Nat
  return_end_ifs : List Nat
deriving DecidableEq, Repr

/-- Models `self.fixed_jumps[offset] = label` (dict assignment; `List.lookup` finds
the most recent binding first, giving overwrite semantics). -/
def addFJ (st : ScanState) (offset label : Nat) : ScanState :=
  { st with fixed_jumps := (offset, label) :: st.fixed_jumps }

/-- The parent-selection loop at the top of `detect_structure`: linear scan
preferring the tightest region containing `offset`, starting from
`structs[0]`.  An empty region list raises in Python; the model returns a
dummy root there (the list is always seeded with the root region). -/
def pick_parent (structs : List Struct) (offset : Nat) : Struct :=
  match structs with
  | [] => ⟨"root", 0, 0⟩
  | s0 :: _ =>
    structs.foldl
      (fun parent struct =>
        if struct.start ≤ offset ∧ offset < struct.stop ∧
           parent.start ≤ struct.start ∧ struct.stop ≤ parent.stop
        then struct else parent) s0

/-- The conditional rewind of `rtarget` just before the if-then detection
(source lines 526-529): step back over a trailing statement-set
`JUMP_ABSOLUTE` unless the pattern indicates an else clause followed by a
loop-block teardown. -/
def rewound (code prev_op stmts : List Nat) (offset rtarget : Nat) : Nat :=
  if code.getD (prev_op.getD rtarget 0) 0 = JUMP_ABSOLUTE ∧
     prev_op.getD rtarget 0 ∈ stmts ∧
     prev_op.getD rtarget 0 ≠ offset ∧
     prev_op.getD (prev_op.getD rtarget 0) 0 ≠ offset ∧
     ¬ (code.getD rtarget 0 = JUMP_ABSOLUTE ∧
        code.getD (rtarget + 3) 0 = POP_BLOCK ∧
        code.getD (prev_op.getD (prev_op.getD rtarget 0) 0) 0 ≠ JUMP_ABSOLUTE)
  then prev_op.getD rtarget 0 else rtarget

/-- The `for j in jump_ifs` search of the sibling-disambiguation branch:
first same-target jump that closes its line, remembering whether every
earlier same-statement jump also shared the target. -/
def find_fix (code : List Nat) (lines : List LineTuple) (target : Nat) :
    List Nat → Bool → Option Nat
  | [], _ => none
  | j :: rest, good =>
    if get_target code j = target then
      if (lines.getD j default).next = j + 3 ∧ good = true then some j
      else find_fix code lines target rest good
    else find_fix code lines target rest false

/-- The `op == POP_JUMP_IF_FALSE` middle section of `detect_structure`
(source lines 473-510).  `some st` models an early `return`, `none` the fall
through to the trailing-jump detection.  `fix or match[-1]` keeps Python's
falsy test: a `fix` of 0 falls back to `match[-1]`. -/
def ds_middle_pjif (code : List Nat) (lines : List LineTuple)
    (prev_op next_stmt stmts : List Nat) (st : ScanState)
    (pstart pstop : Nat) (start target rtarget offset : Nat) :
    Option ScanState :=
  let m := remove_mid_line_ifs code lines prev_op
    (rem_or code start (next_stmt.getD offset 0) [POP_JUMP_IF_FALSE]
      (some target) false)
  let pr := prev_op.getD rtarget 0
  let ppr := prev_op.getD pr 0
  if m ≠ [] then
    if (code.getD pr 0 = JUMP_FORWARD ∨ code.getD pr 0 = JUMP_ABSOLUTE) ∧
       pr ∉ stmts ∧
       restrict_to_parent (get_target code pr) pstart pstop = rtarget then
      if code.getD ppr 0 = JUMP_ABSOLUTE ∧
         remove_mid_line_ifs code lines prev_op [offset] ≠ [] ∧
         target = get_target code ppr ∧
         (ppr ∉ stmts ∨ ppr < get_target code ppr) ∧
         (remove_mid_line_ifs code lines prev_op
           (rem_or code start ppr [POP_JUMP_IF_FALSE, POP_JUMP_IF_TRUE]
             (some target) false)).length = 1 then
        none
      else if code.getD ppr 0 = RETURN_VALUE ∧
         remove_mid_line_ifs code lines prev_op [offset] ≠ [] ∧
         ((remove_mid_line_ifs code lines prev_op
             (rem_or code start ppr [POP_JUMP_IF_FALSE, POP_JUMP_IF_TRUE]
               (some target) false) ++
           remove_mid_line_ifs code lines prev_op
             (rem_or code start ppr
               [POP_JUMP_IF_FALSE, POP_JUMP_IF_TRUE, JUMP_ABSOLUTE]
               (some pr) true)).dedup).length = 1 then
        none
      else
        let jump_ifs := all_instr code start (next_stmt.getD offset 0)
          [POP_JUMP_IF_FALSE] none false
        let fix := find_fix code lines target jump_ifs true
        let label := match fix with
          | some f => if f = 0 then m.getLastD 0 else f
          | none => m.getLastD 0
        some (addFJ st offset label)
    else some (addFJ st offset (m.getLastD 0))
  else none

/-- The `op == POP_JUMP_IF_TRUE` middle section of `detect_structure`
(source lines 512-524); `some st` models an early `return`, `none` the fall
through. -/
def ds_middle_pjit (code prev_op next_stmt : List Nat) (st : ScanState)
    (target rtarget offset : Nat) : Option ScanState :=
  let nxt := next_stmt.getD offset 0
  if prev_op.getD nxt 0 = offset then none
  else if (code.getD nxt 0 = JUMP_FORWARD ∨ code.getD nxt 0 = JUMP_ABSOLUTE) ∧
      target = get_target code nxt then
    if code.getD (prev_op.getD nxt 0) 0 = POP_JUMP_IF_FALSE then
      if code.getD nxt 0 = JUMP_FORWARD ∨ target ≠ rtarget ∨
         ¬ (code.getD (prev_op.getD (prev_op.getD rtarget 0) 0) 0
              = JUMP_ABSOLUTE ∨
            code.getD (prev_op.getD (prev_op.getD rtarget 0) 0) 0
              = RETURN_VALUE) then
        some (addFJ st offset (prev_op.getD nxt 0))
      else none
    else none
  else if code.getD nxt 0 = JUMP_ABSOLUTE ∧
      (code.getD target 0 = JUMP_ABSOLUTE ∨ code.getD target 0 = JUMP_FORWARD) ∧
      get_target code target = get_target code nxt then
    some (addFJ st offset (prev_op.getD nxt 0))
  else none

/-- The trailing-jump detection at the end of the conditional-jump branch of
`detect_structure` (source lines 526-555): rewind `rtarget`, then classify
as loop (abort), if-then (+ optional if-else) or return-terminated if-then. -/
def ds_tail (code prev_op stmts : List Nat) (st : ScanState)
    (pstart pstop : Nat) (start offset rtarget0 : Nat) : ScanState :=
  let rtarget := rewound code prev_op stmts offset rtarget0
  let pr := prev_op.getD rtarget 0
  if code.getD pr 0 = JUMP_ABSOLUTE ∨ code.getD pr 0 = JUMP_FORWARD then
    let if_end := get_target code pr
    if if_end < pr ∧ code.getD (prev_op.getD if_end 0) 0 = SETUP_LOOP ∧
        start < if_end then
      st
    else
      let endv := restrict_to_parent if_end pstart pstop
      let st1 := { st with
        structs := st.structs ++ [⟨"if-then", start, pr⟩],
        not_continue := setAdd st.not_continue pr }
      if rtarget < endv then
        { st1 with structs := st1.structs ++ [⟨"if-else", rtarget, endv⟩] }
      else st1
  else if code.getD pr 0 = RETURN_VALUE then
    { st with structs := st.structs ++ [⟨"if-then", start, rtarget⟩],
              return_end_ifs := setAdd st.return_end_ifs pr }
  else st

/-- Translation of `Scanner.detect_structure` for one offset, threading the
analysis state explicitly.  The precomputed tables (`lines`, `prev_op`,
`next_stmt`, `stmts`) are the instance fields the method reads. -/
def detect_structure (code : List Nat) (lines : List LineTuple)
    (prev_op next_stmt stmts : List Nat) (st : ScanState) (offset : Nat) :
    ScanState :=
  let op := code.getD offset 0
  let parent := pick_parent st.structs offset
  if op = POP_JUMP_IF_FALSE ∨ op = POP_JUMP_IF_TRUE then
    let start := offset + op_size op
    let target := get_target code offset
    let rtarget := restrict_to_parent target parent.start parent.stop
    if target ≠ rtarget ∧ parent.kind = "and/or" then
      addFJ st offset rtarget
    else if (code.getD (prev_op.getD target 0) 0 = JUMP_IF_FALSE_OR_POP ∨
             code.getD (prev_op.getD target 0) 0 = JUMP_IF_TRUE_OR_POP ∨
             code.getD (prev_op.getD target 0) 0 = POP_JUMP_IF_FALSE ∨
             code.getD (prev_op.getD target 0) 0 = POP_JUMP_IF_TRUE) ∧
            offset < target then
      { st with
        fixed_jumps := (offset, prev_op.getD target 0) :: st.fixed_jumps,
        structs := st.structs ++
          [⟨"and/or", start, prev_op.getD target 0⟩] }
    else
      let middle :=
        if op = POP_JUMP_IF_FALSE then
          ds_middle_pjif code lines prev_op next_stmt stmts st
            parent.start parent.stop start target rtarget offset
        else
          ds_middle_pjit code prev_op next_stmt st target rtarget offset
      match middle with
      | some st' => st'
      | none =>
        ds_tail code prev_op stmts st parent.start parent.stop
          start offset rtarget
  else if op = JUMP_IF_FALSE_OR_POP ∨ op = JUMP_IF_TRUE_OR_POP then
    let target := get_target code offset
    if offset < target then
      let unop_target := last_instr code offset target [JUMP_FORWARD]
        (some target) true
      match unop_target with
      | some u =>
        if u ≠ 0 ∧ code.getD (u + 3) 0 ≠ ROT_TWO then addFJ st offset u
        else addFJ st offset
          (restrict_to_parent target parent.start parent.stop)
      | none =>
        addFJ st offset (restrict_to_parent target parent.start parent.stop)
    else st
  else st

/-! ### Scanner.find_jump_targets -/

/-- The `targets` dictionary: destination offset to the ordered list of
source offsets, in insertion order (Python dict semantics). -/
abbrev Targets : Type := List (Nat × List Nat)

/-- Models `targets[label] = targets.get(label, []) + [offset]`: append to the
existing entry in place, or insert a fresh entry at the end. -/
def addTarget (t : Targets) (label src : Nat) : Targets :=
  if (List.lookup label t).isSome then
    t.map (fun p => if p.1 = label then (p.1, p.2 ++ [src]) else p)
  else t ++ [(label, [src])]

/-- The label decoding of the `find_jump_targets` loop body for an offset
with an operand: the fixed-jump override if present, else the literal
destination of relative jumps (except `FOR_ITER`) and of forward
`*_OR_POP` absolute jumps.  The source's `label != -1` guard is vacuous
because every stored label is a non-negative offset. -/
def fjt_label (code : List Nat) (fixed_jumps : List (Nat × Nat))
    (offset : Nat) : Option Nat :=
  let op := code.getD offset 0
  let oparg := code.getD (offset + 1) 0 + code.getD (offset + 2) 0 * 256
  match List.lookup offset fixed_jumps with
  | some l => some l
  | none =>
    if op ∈ hasjrel ∧ op ≠ FOR_ITER then some (offset + 3 + oparg)
    else if op ∈ hasjabs then
      if op = JUMP_IF_FALSE_OR_POP ∨ op = JUMP_IF_TRUE_OR_POP then
        if oparg > offset then some oparg else none
      else none
    else none

/-- The main loop of `find_jump_targets`: call `detect_structure` at each
offset, then record the (possibly fixed) jump label; the separate
`END_FINALLY` arm reads the fixed-jump table for operand-less opcodes. -/
def fjt_loop (code : List Nat) (lines : List LineTuple)
    (prev_op next_stmt stmts : List Nat) :
    ScanState → Targets → List Nat → ScanState × Targets
  | st, tg, [] => (st, tg)
  | st, tg, offset :: rest =>
    let op := code.getD offset 0
    let st' := detect_structure code lines prev_op next_stmt stmts st offset
    let tg' :=
      if HAVE_ARGUMENT ≤ op then
        match fjt_label code st'.fixed_jumps offset with
        | some l => addTarget tg l offset
        | none => tg
      else if op = END_FINALLY ∧ (List.lookup offset st'.fixed_jumps).isSome then
        match List.lookup offset st'.fixed_jumps with
        | some l => addTarget tg l offset
        | none => tg
      else tg
    fjt_loop code lines prev_op next_stmt stmts st' tg' rest

/-- Translation of `Scanner.find_jump_targets`: seed the root region, build
the statement indices, run the loop; returns the targets table and the
final analysis state. -/
def find_jump_targets (code : List Nat) (lines : List LineTuple)
    (prev_op : List Nat) : Targets × ScanState :=
  let codelen := code.length
  let si := build_statement_indices code lines prev_op
  let st0 : ScanState := ⟨[⟨"root", 0, codelen - 1⟩], [], [], []⟩
  let r := fjt_loop code lines prev_op si.2 si.1 st0 [] (opRange code 0 codelen)
  (r.2, r.1)

/-- Modelled from the spec: the same loop with the `END_FINALLY` arm deleted,
used to state that this arm is unreachable (claim about dead code). -/
def fjt_loop_no_end_finally (code : List Nat) (lines : List LineTuple)
    (prev_op next_stmt stmts : List Nat) :
    ScanState → Targets → List Nat → ScanState × Targets
  | st, tg, [] => (st, tg)
  | st, tg, offset :: rest =>
    let op := code.getD offset 0
    let st' := detect_structure code lines prev_op next_stmt stmts st offset
    let tg' :=
      if HAVE_ARGUMENT ≤ op then
        match fjt_label code st'.fixed_jumps offset with
        | some l => addTarget tg l offset
        | none => tg
      else tg
    fjt_loop_no_end_finally code lines prev_op next_stmt stmts st' tg' rest

/-- Modelled from the spec: `find_jump_targets` with the `END_FINALLY` arm
deleted. -/
def find_jump_targets_no_end_finally (code : List Nat)
    (lines : List LineTuple) (prev_op : List Nat) : Targets × ScanState :=
  let codelen := code.length
  let si := build_statement_indices code lines prev_op
  let st0 : ScanState := ⟨[⟨"root", 0, codelen - 1⟩], [], [], []⟩
  let r := fjt_loop_no_end_finally code lines prev_op si.2 si.1 st0 []
    (opRange code 0 codelen)
  (r.2, r.1)

/-! ### Scanner.tokenize -/

/-- A token's offset field: a true instruction offset (Python `int`) or a
synthetic string label such as `"3_0"` or `"3_fake"`. -/
inductive TokOffset
  | ofs (n : Nat)
  | lbl (s : String)
deriving DecidableEq, Repr

/-- Modelled from the spec: the `Token` record (`scanner/token.py` is not
under `src/`): mnemonic `type`, offset or synthetic label, decoded raw
operand `attr` (absent for operand-less instructions and for join tokens),
display operand `pattr`, and the line-start flag.  A bare `Token()` has all
optional fields unset. -/
structure Token where
  type : String
  offset : TokOffset
  linestart : Bool
  attr : Option Nat
  pattr : Option String
deriving DecidableEq, Repr

/-- The deserialized code unit (spec section 3), as far as the scanner reads
it.  Constants are carried as their printed representation (the scanner only
ever takes `repr` of a constant).  `linestarts` is the sparse breakpoint
list produced by the external `dis.findlinestarts`. -/
structure CodeUnit where
  co_code : List Nat
  co_consts : List String
  co_names : List String
  co_varnames : List String
  co_cellvars : List String
  co_freevars : List String
  linestarts : List (Nat × Nat)
deriving DecidableEq, Repr

/-- The synthetic placeholder token injected at a new-if destination
(source lines 41-49). -/
def fakeToken (offset : Nat) : Token :=
  { type := opname JUMP_FORWARD,
    offset := TokOffset.lbl (natStr offset ++ "_fake"),
    linestart := false,
    attr := some 0,
    pattr := some (natStr offset) }

/-- The `for jump_offset in jump_targets[offset]` loop (source lines 55-59):
one `COME_FROM` token per recorded source, labels suffixed with the running
index `jump_idx`. -/
def comeFromTokens (offset : Nat) : Nat → List Nat → List Token
  | _, [] => []
  | jump_idx, jump_offset :: rest =>
    { type := "COME_FROM",
      offset := TokOffset.lbl (natStr offset ++ "_" ++ natStr jump_idx),
      linestart := false,
      attr := none,
      pattr := some (natStr jump_offset) } ::
    comeFromTokens offset (jump_idx + 1) rest

/-- The decoded operand of the instruction at `offset`: its two operand
bytes plus the carried extended-argument accumulator. -/
def decode_arg (code : List Nat) (extended_arg offset : Nat) : Nat :=
  code.getD (offset + 1) 0 + code.getD (offset + 2) 0 * 256 + extended_arg

/-- The extended-argument accumulator after processing the instruction at
`offset`: an `EXTENDED_ARG` shifts its decoded value left 16 bits, any
other operand-carrying instruction resets it, an operand-less instruction
leaves it untouched (the source only assigns it inside the
`op >= HAVE_ARGUMENT` branch). -/
def next_extended (code : List Nat) (extended_arg offset : Nat) : Nat :=
  let op := code.getD offset 0
  if HAVE_ARGUMENT ≤ op then
    if op = EXTENDED_ARG then decode_arg code extended_arg offset * 65536
    else 0
  else extended_arg

/-- The real instruction token at `offset` (source lines 60-91): mnemonic,
line-start flag, and for operand-carrying instructions the decoded `attr`
plus the category-resolved display operand `pattr`. -/
def mkRealToken (co : CodeUnit) (linestart_offsets : List Nat)
    (extended_arg offset : Nat) : Token :=
  let code := co.co_code
  let op := code.getD offset 0
  let base : Token :=
    { type := opname op, offset := TokOffset.ofs offset,
      linestart := decide (offset ∈ linestart_offsets),
      attr := none, pattr := none }
  if HAVE_ARGUMENT ≤ op then
    let oparg := decode_arg code extended_arg offset
    let pattr : Option String :=
      if op ∈ hasconst then some (co.co_consts.getD oparg "")
      else if op ∈ hasname then some (co.co_names.getD oparg "")
      else if op ∈ hasjrel then some (natStr (offset + 3 + oparg))
      else if op ∈ haslocal then some (co.co_varnames.getD oparg "")
      else if op ∈ hascompare then some (cmp_op.getD oparg "")
      else if op ∈ hasfree then
        some ((co.co_cellvars ++ co.co_freevars).getD oparg "")
      else none
    { base with attr := some oparg, pattr := pattr }
  else base

/-- The body of the tokenize loop for one offset: the emitted token block
(placeholder, joins, real token), the updated jump-targets table
(self-registration at new-if destinations) and the next extended-argument
accumulator. -/
def tokenize_step (co : CodeUnit) (new_if_targets linestart_offsets : List Nat)
    (jt : Targets) (extended_arg offset : Nat) :
    List Token × Targets × Nat :=
  let isNewIf := offset ∈ new_if_targets
  let jt' := if isNewIf then addTarget jt offset offset else jt
  let fakeToks : List Token := if isNewIf then [fakeToken offset] else []
  let joinToks : List Token :=
    match List.lookup offset jt' with
    | some srcs => comeFromTokens offset 0 srcs
    | none => []
  (fakeToks ++ joinToks ++ [mkRealToken co linestart_offsets extended_arg offset],
   jt',
   next_extended co.co_code extended_arg offset)

/-- The main loop of `Scanner.tokenize` over the instruction offsets,
threading the jump-targets table and the extended-argument accumulator. -/
def tokenize_loop (co : CodeUnit) (new_if_targets linestart_offsets : List Nat) :
    Targets → Nat → List Nat → List Token
  | _, _, [] => []
  | jt, extended_arg, offset :: rest =>
    let r := tokenize_step co new_if_targets linestart_offsets jt
      extended_arg offset
    r.1 ++ tokenize_loop co new_if_targets linestart_offsets r.2.1 r.2.2 rest

/-- Translation of `Scanner.tokenize`: build the line, prev-op, new-if and
jump-targets tables, then emit the token sequence. -/
def tokenize (co : CodeUnit) : List Token :=
  let code := co.co_code
  let codelen := code.length
  let lines := build_lines_data codelen co.linestarts
  let prev_op := build_prev_op code
  let new_ifs := find_new_ifs code lines
  let jt := (find_jump_targets code lines prev_op).1
  tokenize_loop co (new_ifs.map Prod.snd) (co.linestarts.map Prod.fst)
    jt 0 (opRange code 0 codelen)

/-! ## Theorems for the claims -/

/-! ### C8: restrict_to_parent -/

/-- C8: `restrict_to_parent(target, parent)` returns `target` unchanged when
`parent.start < target < parent.end` and returns `parent.end` otherwise;
consequently, for every parent region with `start < end`, the returned value
lies in the interval `(start, end]` — never outside the region's bounds. -/
theorem restrict_to_parent_correct (target pstart pend : Nat)
    (h : pstart < pend) :
    (pstart < target ∧ target < pend →
      restrict_to_parent target pstart pend = target) ∧
    (¬ (pstart < target ∧ target < pend) →
      restrict_to_parent target pstart pend = pend) ∧
    pstart < restrict_to_parent target pstart pend ∧
    restrict_to_parent target pstart pend ≤ pend := by
  unfold restrict_to_parent
  refine ⟨fun hc => by simp [hc], fun hc => by simp [hc], ?_⟩
  split <;> omega

/-- C8 witness: the theorem applied to the region `(0, 3)` and the inside
target 2 and, through the second conjunct, the outside target 5. -/
theorem restrict_to_parent_correct_witness :
    (restrict_to_parent 2 0 3 = 2) ∧ (restrict_to_parent 5 0 3 = 3) ∧
    0 < restrict_to_parent 5 0 3 ∧ restrict_to_parent 5 0 3 ≤ 3 := by
  have h2 := restrict_to_parent_correct 2 0 3 (by decide)
  have h5 := restrict_to_parent_correct 5 0 3 (by decide)
  exact ⟨h2.1 (by decide), h5.2.1 (by decide), h5.2.2.1, h5.2.2.2⟩

/-! ### C1: build_prev_op -/

theorem prevBlocks_getD (code : List Nat) :
    ∀ stop start s, s ∈ opRange code start stop →
      ∀ b, s < b → b ≤ s + op_size (code.getD s 0) →
        ((opRange code start stop).flatMap
          (fun o => List.replicate (op_size (code.getD o 0)) o)).getD
          (b - 1 - start) 0 = s := by
  intro stop
  have main : ∀ n start, stop - start = n → ∀ s, s ∈ opRange code start stop →
      ∀ b, s < b → b ≤ s + op_size (code.getD s 0) →
        ((opRange code start stop).flatMap
          (fun o => List.replicate (op_size (code.getD o 0)) o)).getD
          (b - 1 - start) 0 = s := by
    intro n
    induction n using Nat.strong_induction_on with
    | _ n ih =>
      intro start hn s hs b hb1 hb2
      rw [opRange_eq] at hs ⊢
      by_cases h : start < stop
      · simp only [h, if_true, List.mem_cons] at hs
        simp only [h, if_true, List.flatMap_cons]
        set z := op_size (code.getD start 0) with hz
        have hzpos := op_size_pos (code.getD start 0)
        rcases hs with heq | hs
        · subst heq
          have hlt : b - 1 - s < z := by omega
          rw [List.getD_append _ _ _ _ (by simpa using hlt),
            List.getD_eq_getElem _ _ (by simpa using hlt)]
          exact List.getElem_replicate s (by simpa using hlt)
        · have hge : start + z ≤ s :=
            (opRange_mem_bounds code stop (start + z) s hs).1
          have hql : z ≤ b - 1 - start := by omega
          rw [List.getD_append_right _ _ _ _ (by simpa using hql)]
          have harith : b - 1 - start - z = b - 1 - (start + z) := by omega
          rw [List.length_replicate, harith]
          exact ih (stop - (start + z)) (by omega) (start + z) rfl s hs b
            hb1 hb2
      · simp [h] at hs
  intro start s hs b hb1 hb2
  exact main (stop - start) start rfl s hs b hb1 hb2

theorem build_prev_op_within (code : List Nat) (s : Nat)
    (hs : s ∈ opRange code 0 code.length) (b : Nat) (h1 : s < b)
    (h2 : b ≤ s + op_size (code.getD s 0)) :
    (build_prev_op code).getD b 0 = s := by
  obtain ⟨c, rfl⟩ : ∃ c, b = c + 1 := ⟨b - 1, by omega⟩
  unfold build_prev_op
  rw [List.singleton_append, List.getD_cons_succ]
  have := prevBlocks_getD code code.length 0 s hs (c + 1) h1 h2
  simpa using this

/-- C1 counterexample: in the two-instruction buffer `[1, 1]` (two
operand-less opcodes), the offset 1 is an instruction start — so byte 1 is
occupied by that instruction — yet `prev_op[1] = 0 ≠ 1`: the table applied
to an instruction's own start offset returns the previous instruction's
start, not that offset. -/
theorem build_prev_op_cex :
    1 ∈ opRange [1, 1] 0 2 ∧
    1 < 1 + op_size (([1, 1] : List Nat).getD 1 0) ∧
    (build_prev_op [1, 1]).getD 1 0 ≠ 1 := by decide

/-- C1 amended: the table built by `build_prev_op` maps each byte offset to
the start of the instruction occupying the preceding byte: for every
instruction-start offset `s` and every byte offset `b` occupied by that
instruction, `prev_op[b + 1] = s` — equivalently `prev_op[b] = s` for all
`b` with `s < b ≤ s + size`; in particular applying the table to the start
offset of the next instruction returns `s`, while `prev_op[s]` is the start
of the instruction before `s` (so `prev_op[s] = s` holds only at offset 0). -/
theorem build_prev_op_maps_to_previous (code : List Nat) (s : Nat)
    (hs : s ∈ opRange code 0 code.length) (b : Nat) (h1 : s ≤ b)
    (h2 : b < s + op_size (code.getD s 0)) :
    (build_prev_op code).getD (b + 1) 0 = s :=
  build_prev_op_within code s hs (b + 1) (by omega) (by omega)

/-- C1 amended witness: in the buffer `[1, 1]`, byte 1 is occupied by the
instruction starting at offset 1 and `prev_op[2] = 1`. -/
theorem build_prev_op_maps_to_previous_witness :
    1 ∈ opRange [1, 1] 0 2 ∧
    1 < 1 + op_size (([1, 1] : List Nat).getD 1 0) ∧
    (build_prev_op [1, 1]).getD 2 0 = 1 :=
  ⟨by decide, by decide,
    build_prev_op_maps_to_previous [1, 1] 1 (by decide) 1 (by decide)
      (by decide)⟩

/-! ### C9: build_lines_data -/

theorem linesLoop_length : ∀ (bps : List (Nat × Nat)) (offset prev : Nat),
    offset ≤ (linesLoop offset prev bps).2.1 ∧
    (linesLoop offset prev bps).1.length + offset =
      (linesLoop offset prev bps).2.1 := by
  intro bps
  induction bps with
  | nil => intro offset prev; simp [linesLoop]
  | cons hd rest ih =>
    intro offset prev
    obtain ⟨so, ln⟩ := hd
    obtain ⟨ih1, ih2⟩ := ih (max offset so) ln
    simp only [linesLoop, List.length_append, List.length_replicate]
    omega

theorem linesLoop_final_le : ∀ (bps : List (Nat × Nat)) (offset prev C : Nat),
    offset ≤ C → (∀ p ∈ bps, p.1 ≤ C) →
    (linesLoop offset prev bps).2.1 ≤ C := by
  intro bps
  induction bps with
  | nil => intro offset prev C h _; simpa [linesLoop] using h
  | cons hd rest ih =>
    intro offset prev C h hb
    obtain ⟨so, ln⟩ := hd
    have hso : so ≤ C := hb (so, ln) (by simp)
    exact ih (max offset so) ln C (by omega)
      (fun p hp => hb p (List.mem_cons_of_mem _ hp))

theorem linesLoop_mono : ∀ (bps : List (Nat × Nat)) (offset prev : Nat),
    (∀ p ∈ bps, prev ≤ p.2) →
    List.Pairwise (fun p q : Nat × Nat => p.2 ≤ q.2) bps →
    List.Pairwise (fun a b : LineTuple => a.l_no ≤ b.l_no)
      (linesLoop offset prev bps).1 ∧
    (∀ t ∈ (linesLoop offset prev bps).1,
      prev ≤ t.l_no ∧ t.l_no ≤ (linesLoop offset prev bps).2.2) ∧
    prev ≤ (linesLoop offset prev bps).2.2 := by
  intro bps
  induction bps with
  | nil => intro offset prev _ _; simp [linesLoop]
  | cons hd rest ih =>
    intro offset prev hlow hpw
    obtain ⟨so, ln⟩ := hd
    have hprevln : prev ≤ ln := hlow (so, ln) (by simp)
    have hlnrest : ∀ p ∈ rest, ln ≤ p.2 := by
      intro p hp
      exact (List.pairwise_cons.mp hpw).1 p hp
    obtain ⟨P1, P2, P3⟩ := ih (max offset so) ln hlnrest
      (List.pairwise_cons.mp hpw).2
    simp only [linesLoop]
    refine ⟨?_, ?_, by omega⟩
    · rw [List.pairwise_append]
      refine ⟨List.pairwise_replicate.mpr (Or.inr le_rfl), P1, ?_⟩
      intro a ha b hb
      have ha' := List.eq_of_mem_replicate ha
      subst ha'
      exact le_trans hprevln (P2 b hb).1
    · intro t ht
      rcases List.mem_append.mp ht with ht | ht
      · have := List.eq_of_mem_replicate ht
        subst this
        refine ⟨le_rfl, ?_⟩
        show prev ≤ (linesLoop (max offset so) ln rest).2.2
        omega
      · exact ⟨le_trans hprevln (P2 t ht).1, (P2 t ht).2⟩

/-- C9 counterexample: the breakpoint list `[(0, 5), (2, 3)]` is non-empty
and sorted by offset (with offsets inside a 4-byte buffer), yet the table
built by `build_lines_data` is not monotone: the line at offset 2 is smaller
than the line at offset 0.  Line numbers decreasing along the breakpoint
list defeat the claimed monotonicity. -/
theorem build_lines_data_cex :
    List.Pairwise (fun p q : Nat × Nat => p.1 ≤ q.1) [(0, 5), (2, 3)] ∧
    (∀ p ∈ ([(0, 5), (2, 3)] : List (Nat × Nat)), p.1 ≤ 4) ∧
    (build_lines_data 4 [(0, 5), (2, 3)]).length = 4 ∧
    ((build_lines_data 4 [(0, 5), (2, 3)]).getD 2 default).l_no <
      ((build_lines_data 4 [(0, 5), (2, 3)]).getD 0 default).l_no := by
  decide

/-- C9 amended: given a non-empty breakpoint list sorted by offset, with all
offsets at most the buffer length and with non-decreasing line numbers, the
per-offset line table built by `build_lines_data` has exactly one entry for
every byte offset in `[0, length)` and the line numbers it assigns are
monotone: for offsets `a < b` in range, `line(a) ≤ line(b)`.  (The original
claim omits the last two hypotheses; the counterexample shows the line
monotonicity hypothesis is required, and offsets beyond the buffer length
would also break the coverage part.) -/
theorem build_lines_data_correct (codelen o0 l0 : Nat)
    (rest : List (Nat × Nat))
    (_hoff : List.Pairwise (fun p q : Nat × Nat => p.1 ≤ q.1)
      ((o0, l0) :: rest))
    (hbound : ∀ p ∈ (o0, l0) :: rest, p.1 ≤ codelen)
    (hline : List.Pairwise (fun p q : Nat × Nat => p.2 ≤ q.2)
      ((o0, l0) :: rest)) :
    (build_lines_data codelen ((o0, l0) :: rest)).length = codelen ∧
    ∀ a b, a < b → b < codelen →
      ((build_lines_data codelen ((o0, l0) :: rest)).getD a default).l_no ≤
      ((build_lines_data codelen ((o0, l0) :: rest)).getD b default).l_no := by
  have hrest_low : ∀ p ∈ rest, l0 ≤ p.2 := (List.pairwise_cons.mp hline).1
  have hrest_pw := (List.pairwise_cons.mp hline).2
  have hrest_bound : ∀ p ∈ rest, p.1 ≤ codelen :=
    fun p hp => hbound p (List.mem_cons_of_mem _ hp)
  obtain ⟨hle, hlen⟩ := linesLoop_length rest 0 l0
  have hfin : (linesLoop 0 l0 rest).2.1 ≤ codelen :=
    linesLoop_final_le rest 0 l0 codelen (by omega) hrest_bound
  obtain ⟨P1, P2, P3⟩ := linesLoop_mono rest 0 l0 hrest_low hrest_pw
  have hLen : (build_lines_data codelen ((o0, l0) :: rest)).length = codelen := by
    simp only [build_lines_data, List.length_append, List.length_replicate]
    omega
  refine ⟨hLen, ?_⟩
  have hpw : List.Pairwise (fun a b : LineTuple => a.l_no ≤ b.l_no)
      (build_lines_data codelen ((o0, l0) :: rest)) := by
    simp only [build_lines_data]
    rw [List.pairwise_append]
    refine ⟨P1, List.pairwise_replicate.mpr (Or.inr le_rfl), ?_⟩
    intro a ha b hb
    have hb' := List.eq_of_mem_replicate hb
    subst hb'
    exact (P2 a ha).2
  intro a b hab hb
  have hblt : b < (build_lines_data codelen ((o0, l0) :: rest)).length := by
    omega
  have halt : a < (build_lines_data codelen ((o0, l0) :: rest)).length := by
    omega
  rw [List.getD_eq_getElem _ _ halt, List.getD_eq_getElem _ _ hblt]
  exact List.pairwise_iff_getElem.mp hpw a b halt hblt hab

/-- C9 amended witness: the sorted, line-monotone breakpoint list
`[(0, 1), (2, 4)]` over a 4-byte buffer: full coverage and monotone lines. -/
theorem build_lines_data_correct_witness :
    (build_lines_data 4 [(0, 1), (2, 4)]).length = 4 ∧
    ((build_lines_data 4 [(0, 1), (2, 4)]).getD 1 default).l_no ≤
      ((build_lines_data 4 [(0, 1), (2, 4)]).getD 3 default).l_no := by
  have h := build_lines_data_correct 4 0 1 [(2, 4)] (by decide) (by decide)
    (by decide)
  exact ⟨h.1, h.2 1 3 (by decide) (by decide)⟩

/-! ### C4: find_new_ifs -/

theorem new_if_stop_false_iff (code : List Nat) (lines : List LineTuple)
    (o t : Nat) :
    new_if_stop code lines o t = false ↔
      ((∀ io ∈ opRange code o t, code.getD io 0 = JUMP_FORWARD →
         (lines.getD (get_target code io) default).l_no =
           (lines.getD io default).l_no) ∧
       (∀ io ∈ opRange code o t, code.getD io 0 = JUMP_ABSOLUTE →
         o ≤ get_target code io)) := by
  unfold new_if_stop
  rw [List.any_eq_false]
  constructor
  · intro h
    refine ⟨fun io hio hJF => ?_, fun io hio hJA => ?_⟩
    · have h' := h io hio
      simp only [hJF] at h'
      rw [if_pos trivial] at h'
      simpa using h'
    · have h' := h io hio
      simp only [hJA] at h'
      rw [if_neg (by decide), if_pos trivial] at h'
      simpa using h'
  · rintro ⟨hJF, hJA⟩ io hio
    by_cases h1 : code.getD io 0 = JUMP_FORWARD
    · simp only [h1]
      rw [if_pos trivial]
      simpa using hJF io hio h1
    · by_cases h2 : code.getD io 0 = JUMP_ABSOLUTE
      · simp only [h2]
        rw [if_neg (by decide), if_pos trivial]
        simpa using hJA io hio h2
      · dsimp only
        rw [if_neg h1, if_neg h2]
        simp

/-- C4: `find_new_ifs` records a conditional pop-jump at offset `o` with
destination `t` exactly when `o` is an instruction start holding
`POP_JUMP_IF_FALSE` or `POP_JUMP_IF_TRUE`, `t` is its destination, the
source line of `o` differs from the line of `t`, no scanned `JUMP_FORWARD`
between `o` and `t` has a destination on a different line than that inner
jump, and no scanned `JUMP_ABSOLUTE` between `o` and `t` targets an offset
before `o` (the scan walks `op_range(o, t)`; its first instruction is the
jump itself, which can match neither inner opcode). -/
theorem find_new_ifs_characterization (code : List Nat)
    (lines : List LineTuple) (o t : Nat) :
    (o, t) ∈ find_new_ifs code lines ↔
      (o ∈ opRange code 0 code.length ∧
       (code.getD o 0 = POP_JUMP_IF_FALSE ∨
        code.getD o 0 = POP_JUMP_IF_TRUE) ∧
       t = get_target code o ∧
       (lines.getD o default).l_no ≠ (lines.getD t default).l_no ∧
       (∀ io ∈ opRange code o t, code.getD io 0 = JUMP_FORWARD →
         (lines.getD (get_target code io) default).l_no =
           (lines.getD io default).l_no) ∧
       (∀ io ∈ opRange code o t, code.getD io 0 = JUMP_ABSOLUTE →
         o ≤ get_target code io)) := by
  constructor
  · intro hmem
    rw [find_new_ifs, List.mem_filterMap] at hmem
    obtain ⟨a, ha, hfa⟩ := hmem
    simp only at hfa
    split_ifs at hfa with h1 h2 h3
    have hinj := Option.some.inj hfa
    have ha1 : a = o := congrArg Prod.fst hinj
    have ha2 : get_target code a = t := congrArg Prod.snd hinj
    have hstop : new_if_stop code lines a (get_target code a) = false := by
      simpa using h3
    obtain ⟨hJF, hJA⟩ := (new_if_stop_false_iff code lines a
      (get_target code a)).mp hstop
    rw [← ha1, ← ha2]
    exact ⟨ha, h1, rfl, h2, hJF, hJA⟩
  · rintro ⟨hmem, hop, rfl, hln, hJF, hJA⟩
    rw [find_new_ifs, List.mem_filterMap]
    refine ⟨o, hmem, ?_⟩
    have hstop : new_if_stop code lines o (get_target code o) = false :=
      (new_if_stop_false_iff code lines o (get_target code o)).mpr ⟨hJF, hJA⟩
    simp only
    rw [if_pos hop, if_neg hln, if_neg (by simp [hstop])]

/-! ### Decimal strings are injective (needed for distinctness of the
synthetic token labels) -/

def digitVal (c : Char) : Nat := c.toNat - 48

theorem digitVal_digitChar (n : Nat) (h : n < 10) :
    digitVal (Nat.digitChar n) = n := by
  interval_cases n <;> decide

def decodeDigits (l : List Char) : Nat :=
  l.foldl (fun a c => a * 10 + digitVal c) 0

theorem decode_natDigits : ∀ fuel n, n < fuel →
    decodeDigits (natDigits fuel n) = n := by
  intro fuel
  induction fuel with
  | zero => intro n h; omega
  | succ f ih =>
    intro n h
    simp only [natDigits]
    by_cases h10 : n < 10
    · rw [if_pos h10]
      simp [decodeDigits, digitVal_digitChar n h10]
    · rw [if_neg h10]
      have hdiv : n / 10 < f := by omega
      have hih := ih (n / 10) hdiv
      unfold decodeDigits at hih ⊢
      rw [List.foldl_append, hih]
      simp [digitVal_digitChar (n % 10) (by omega)]
      omega

theorem natStr_inj (m n : Nat) (h : natStr m = natStr n) : m = n := by
  have hm := decode_natDigits (m + 1) m (by omega)
  have hn := decode_natDigits (n + 1) n (by omega)
  unfold natStr at h
  have hdata : natDigits (m + 1) m = natDigits (n + 1) n :=
    congrArg String.data h
  rw [← hm, ← hn, hdata]

theorem string_append_right_inj (s : String) (t u : String)
    (h : s ++ t = s ++ u) : t = u := by
  obtain ⟨sd⟩ := s
  obtain ⟨td⟩ := t
  obtain ⟨ud⟩ := u
  have hd : sd ++ td = sd ++ ud := congrArg String.data h
  have := List.append_cancel_left hd
  rw [this]

/-! ### Structure of the token blocks emitted by the tokenize loop -/

theorem comeFromTokens_length (o : Nat) : ∀ (k : Nat) (srcs : List Nat),
    (comeFromTokens o k srcs).length = srcs.length := by
  intro k srcs
  induction srcs generalizing k with
  | nil => rfl
  | cons hd tl ih => simp [comeFromTokens, ih]

theorem comeFromTokens_type (o : Nat) : ∀ (k : Nat) (srcs : List Nat),
    ∀ t ∈ comeFromTokens o k srcs, t.type = "COME_FROM" := by
  intro k srcs
  induction srcs generalizing k with
  | nil => intro t ht; simp [comeFromTokens] at ht
  | cons hd tl ih =>
    intro t ht
    rcases List.mem_cons.mp ht with rfl | ht
    · rfl
    · exact ih (k + 1) t ht

theorem comeFromTokens_offset_map (o : Nat) : ∀ (k : Nat) (srcs : List Nat),
    (comeFromTokens o k srcs).map Token.offset =
      (List.range srcs.length).map
        (fun i => TokOffset.lbl (natStr o ++ "_" ++ natStr (k + i))) := by
  intro k srcs
  induction srcs generalizing k with
  | nil => rfl
  | cons hd tl ih =>
    simp only [comeFromTokens, List.map_cons, List.length_cons,
      List.range_succ_eq_map, List.map_map]
    refine congrArg₂ _ (by simp) ?_
    rw [ih (k + 1)]
    apply List.map_congr_left
    intro i _
    simp only [Function.comp]
    have : k + 1 + i = k + (i + 1) := by omega
    rw [this]

theorem comeFromTokens_offset_nodup (o : Nat) (k : Nat) (srcs : List Nat) :
    ((comeFromTokens o k srcs).map Token.offset).Nodup := by
  rw [comeFromTokens_offset_map]
  refine List.Nodup.map ?_ (List.nodup_range _)
  intro a b hab
  have h1 : natStr o ++ "_" ++ natStr (k + a) = natStr o ++ "_" ++ natStr (k + b) :=
    TokOffset.lbl.inj hab
  rw [String.append_assoc, String.append_assoc] at h1
  have h2 := string_append_right_inj _ _ _ h1
  have h3 := string_append_right_inj "_" _ _ h2
  have := natStr_inj _ _ h3
  omega

theorem lookup_map_append (l s : Nat) : ∀ (t : Targets) (v : List Nat),
    List.lookup l t = some v →
    List.lookup l (t.map (fun p => if p.1 = l then (p.1, p.2 ++ [s]) else p)) =
      some (v ++ [s]) := by
  intro t
  induction t with
  | nil => intro v hv; simp [List.lookup] at hv
  | cons hd tl ih =>
    intro v hv
    obtain ⟨k, w⟩ := hd
    by_cases hk : k = l
    · subst hk
      simp only [List.lookup, beq_self_eq_true] at hv
      obtain rfl : w = v := Option.some.inj hv
      rw [List.map_cons, if_pos (show (k, w).1 = k from rfl)]
      simp only [List.lookup, beq_self_eq_true]
    · have hlk : (l == k) = false := beq_eq_false_iff_ne.mpr (Ne.symm hk)
      simp only [List.lookup, hlk] at hv
      rw [List.map_cons, if_neg (show ¬ (k, w).1 = l from hk)]
      simp only [List.lookup, hlk]
      exact ih v hv

theorem lookup_append_single (l s : Nat) : ∀ t : Targets,
    List.lookup l t = none →
    List.lookup l (t ++ [(l, [s])]) = some [s] := by
  intro t
  induction t with
  | nil => intro _; simp [List.lookup]
  | cons hd tl ih =>
    intro hnone
    obtain ⟨k, w⟩ := hd
    by_cases hk : k = l
    · subst hk
      simp [List.lookup] at hnone
    · have hlk : (l == k) = false := beq_eq_false_iff_ne.mpr (Ne.symm hk)
      simp only [List.lookup, hlk] at hnone
      simp only [List.cons_append, List.lookup, hlk]
      exact ih hnone

theorem addTarget_lookup (t : Targets) (l s : Nat) :
    List.lookup l (addTarget t l s) =
      some (((List.lookup l t).getD []) ++ [s]) := by
  unfold addTarget
  cases hlook : List.lookup l t with
  | some v =>
    rw [if_pos (by simp [hlook])]
    simpa using lookup_map_append l s t v hlook
  | none =>
    rw [if_neg (by simp [hlook])]
    simpa using lookup_append_single l s t hlook

theorem tokenize_step_ext (co : CodeUnit) (nit lso : List Nat) (jt : Targets)
    (ext offset : Nat) :
    (tokenize_step co nit lso jt ext offset).2.2 =
      next_extended co.co_code ext offset := rfl

/-! ### C3: join-token completeness -/

/-- C3: for every destination offset whose recorded incoming-jump source
list `srcs` (as consulted by the loop when processing that offset, i.e.
after the self-registration performed at new-if destinations) has `n > 1`
entries, the loop emits exactly `n` synthetic `COME_FROM` tokens immediately
before the real token at that offset, labeled `"offset_k"` for
`k = 0, 1, 2, ...`, with no two of those labels equal. -/
theorem join_tokens_complete (co : CodeUnit) (nit lso : List Nat)
    (jt : Targets) (ext offset : Nat) (rest : List Nat) (srcs : List Nat)
    (hsrcs : List.lookup offset
      (if offset ∈ nit then addTarget jt offset offset else jt) = some srcs)
    (_hn : 1 < srcs.length) :
    tokenize_loop co nit lso jt ext (offset :: rest) =
      (if offset ∈ nit then [fakeToken offset] else []) ++
      comeFromTokens offset 0 srcs ++
      [mkRealToken co lso ext offset] ++
      tokenize_loop co nit lso
        (if offset ∈ nit then addTarget jt offset offset else jt)
        (next_extended co.co_code ext offset) rest ∧
    (comeFromTokens offset 0 srcs).length = srcs.length ∧
    (∀ t ∈ comeFromTokens offset 0 srcs, t.type = "COME_FROM") ∧
    (comeFromTokens offset 0 srcs).map Token.offset =
      (List.range srcs.length).map
        (fun k => TokOffset.lbl (natStr offset ++ "_" ++ natStr (0 + k))) ∧
    ((comeFromTokens offset 0 srcs).map Token.offset).Nodup := by
  refine ⟨?_, comeFromTokens_length offset 0 srcs,
    comeFromTokens_type offset 0 srcs,
    comeFromTokens_offset_map offset 0 srcs,
    comeFromTokens_offset_nodup offset 0 srcs⟩
  by_cases hnif : offset ∈ nit
  · rw [if_pos hnif] at hsrcs
    simp [tokenize_loop, tokenize_step, hnif, hsrcs, List.append_assoc]
  · rw [if_neg hnif] at hsrcs
    simp [tokenize_loop, tokenize_step, hnif, hsrcs, List.append_assoc]

/-- C3 witness: a destination with the two recorded sources 1 and 3. -/
theorem join_tokens_complete_witness :
    (comeFromTokens 5 0 [1, 3]).length = 2 ∧
    (∀ t ∈ comeFromTokens 5 0 [1, 3], t.type = "COME_FROM") ∧
    ((comeFromTokens 5 0 [1, 3]).map Token.offset).Nodup := by
  have h := join_tokens_complete ⟨[], [], [], [], [], [], []⟩ [] []
    [(5, [1, 3])] 0 5 [] [1, 3] (by decide) (by decide)
  exact ⟨h.2.1, h.2.2.1, h.2.2.2.2⟩

/-! ### C2: joins are also emitted for single-source destinations -/

def exCoSingleJump : CodeUnit :=
  ⟨[JUMP_FORWARD, 0, 0, RETURN_VALUE], [], [], [], [], [], [(0, 1)]⟩

/-- C2 counterexample: in the code unit `JUMP_FORWARD 3; RETURN_VALUE` the
destination 3 has exactly one recorded incoming jump source (offset 0), yet
`tokenize` does emit a synthetic `COME_FROM` token (label `"3_0"`) before
the real token at offset 3 — the source emits one join token per recorded
source with no multiplicity threshold. -/
theorem single_source_join_cex :
    (find_jump_targets exCoSingleJump.co_code
      (build_lines_data exCoSingleJump.co_code.length exCoSingleJump.linestarts)
      (build_prev_op exCoSingleJump.co_code)).1 = [(3, [0])] ∧
    (tokenize exCoSingleJump).map (fun t => (t.type, t.offset)) =
      [("JUMP_FORWARD", TokOffset.ofs 0),
       ("COME_FROM", TokOffset.lbl "3_0"),
       ("RETURN_VALUE", TokOffset.ofs 3)] := by decide

/-- C2 amended: the tokenizer emits one synthetic join token per recorded
incoming jump source at every recorded destination offset, with no
multiplicity threshold; in particular a destination offset with exactly one
recorded incoming jump source (and which is not a new-if destination) gets
exactly one `COME_FROM` token immediately before its real token. -/
theorem single_source_one_join (co : CodeUnit) (nit lso : List Nat)
    (jt : Targets) (ext offset : Nat) (rest : List Nat) (src : Nat)
    (hnif : offset ∉ nit)
    (hsrc : List.lookup offset jt = some [src]) :
    tokenize_loop co nit lso jt ext (offset :: rest) =
      { type := "COME_FROM",
        offset := TokOffset.lbl (natStr offset ++ "_" ++ natStr 0),
        linestart := false, attr := none,
        pattr := some (natStr src) } ::
      mkRealToken co lso ext offset ::
      tokenize_loop co nit lso jt (next_extended co.co_code ext offset) rest := by
  simp [tokenize_loop, tokenize_step, hnif, hsrc, comeFromTokens]

/-- C2 amended witness: a single-source destination receives exactly one
join token. -/
theorem single_source_one_join_witness :
    tokenize_loop exCoSingleJump [] [0] [(3, [0])] 0 [3] =
      [{ type := "COME_FROM",
         offset := TokOffset.lbl (natStr 3 ++ "_" ++ natStr 0),
         linestart := false, attr := none, pattr := some (natStr 0) },
       mkRealToken exCoSingleJump [0] 0 3] := by
  have h := single_source_one_join exCoSingleJump [] [0] [(3, [0])] 0 3 [] 0
    (by decide) (by decide)
  simpa using h

/-! ### C5: the new-if placeholder token -/

/-- C5: at every recorded new-if destination offset the loop emits — before
any join tokens and before the real token — exactly one synthetic
placeholder token whose type is the `JUMP_FORWARD` mnemonic, whose offset
label is the offset suffixed with `"_fake"`, and whose display operand is
the textual representation of that offset; the offset is additionally
registered as an incoming join source for itself. -/
theorem new_if_placeholder (co : CodeUnit) (nit lso : List Nat)
    (jt : Targets) (ext offset : Nat) (rest : List Nat)
    (h : offset ∈ nit) :
    tokenize_loop co nit lso jt ext (offset :: rest) =
      fakeToken offset ::
        (comeFromTokens offset 0
            (((List.lookup offset jt).getD []) ++ [offset]) ++
         [mkRealToken co lso ext offset] ++
         tokenize_loop co nit lso (addTarget jt offset offset)
           (next_extended co.co_code ext offset) rest) ∧
    (fakeToken offset).type = "JUMP_FORWARD" ∧
    (fakeToken offset).offset = TokOffset.lbl (natStr offset ++ "_fake") ∧
    (fakeToken offset).attr = some 0 ∧
    (fakeToken offset).pattr = some (natStr offset) ∧
    List.lookup offset (addTarget jt offset offset) =
      some (((List.lookup offset jt).getD []) ++ [offset]) := by
  refine ⟨?_, rfl, rfl, rfl, rfl, addTarget_lookup jt offset offset⟩
  simp [tokenize_loop, tokenize_step, h, addTarget_lookup]

/-- C5 witness: the new-if destination 3 with an empty prior join table. -/
theorem new_if_placeholder_witness :
    tokenize_loop exCoSingleJump [3] [0] [] 0 [3] =
      fakeToken 3 ::
        (comeFromTokens 3 0 [3] ++ [mkRealToken exCoSingleJump [0] 0 3]) ∧
    (fakeToken 3).type = "JUMP_FORWARD" ∧
    List.lookup 3 (addTarget ([] : Targets) 3 3) = some [3] := by
  have h := new_if_placeholder exCoSingleJump [3] [0] [] 0 3 [] (by decide)
  refine ⟨?_, h.2.1, by decide⟩
  have h1 := h.1
  simpa using h1

/-! ### C7: the extended-argument accumulator -/

def exCoDoubleEA : CodeUnit :=
  ⟨[EXTENDED_ARG, 1, 0, EXTENDED_ARG, 2, 0, CALL_FUNCTION, 3, 0],
   [], [], [], [], [], [(0, 1)]⟩

/-- C7 counterexample: in a buffer with two consecutive `EXTENDED_ARG`
instructions (decoded operands 1 and 2) followed by an instruction with
decoded operand 3, the second `EXTENDED_ARG` has decoded 2-byte operand
`v = 2` and is immediately followed by an instruction with decoded 2-byte
operand `w = 3`, but that instruction's token carries
`attr = 4295098371 = 3 + (2 + 1 * 65536) * 65536`, not `w + v * 65536 =
131075` — the incoming accumulator adds in — and the accumulator after the
first pair's following instruction is not reset to zero (that instruction
is itself an `EXTENDED_ARG`). -/
theorem extended_arg_cex :
    exCoDoubleEA.co_code.getD 3 0 = EXTENDED_ARG ∧
    exCoDoubleEA.co_code.getD 4 0 + exCoDoubleEA.co_code.getD 5 0 * 256 = 2 ∧
    exCoDoubleEA.co_code.getD 7 0 + exCoDoubleEA.co_code.getD 8 0 * 256 = 3 ∧
    (tokenize exCoDoubleEA).map Token.attr =
      [some 1, some 65538, some 4295098371] ∧
    (4295098371 : Nat) ≠ 3 + 2 * 65536 := by decide

/-- C7 amended: when an `EXTENDED_ARG` instruction is processed with a zero
incoming accumulator (it is not itself prefixed by another `EXTENDED_ARG`)
and is immediately followed by a non-`EXTENDED_ARG` instruction carrying an
operand, then, writing `v` and `w` for the two decoded 2-byte operands: the
following instruction's token carries `attr = w + v * 65536`, the
accumulator is reset to zero for the instruction after that, and the
extended-argument token itself resolves no display operand (`pattr` is
unset, though its `attr` does carry `v`). -/
theorem extended_arg_prefix (co : CodeUnit) (nit lso : List Nat)
    (jt : Targets) (offset : Nat) (rest : List Nat)
    (hEA : co.co_code.getD offset 0 = EXTENDED_ARG)
    (hnextop : HAVE_ARGUMENT ≤ co.co_code.getD (offset + 3) 0)
    (hnotEA : co.co_code.getD (offset + 3) 0 ≠ EXTENDED_ARG) :
    (mkRealToken co lso 0 offset).attr =
      some (co.co_code.getD (offset + 1) 0 +
        co.co_code.getD (offset + 2) 0 * 256) ∧
    (mkRealToken co lso 0 offset).pattr = none ∧
    next_extended co.co_code 0 offset =
      (co.co_code.getD (offset + 1) 0 +
        co.co_code.getD (offset + 2) 0 * 256) * 65536 ∧
    (mkRealToken co lso
        ((co.co_code.getD (offset + 1) 0 +
          co.co_code.getD (offset + 2) 0 * 256) * 65536) (offset + 3)).attr =
      some ((co.co_code.getD (offset + 4) 0 +
          co.co_code.getD (offset + 5) 0 * 256) +
        (co.co_code.getD (offset + 1) 0 +
          co.co_code.getD (offset + 2) 0 * 256) * 65536) ∧
    next_extended co.co_code
      ((co.co_code.getD (offset + 1) 0 +
        co.co_code.getD (offset + 2) 0 * 256) * 65536) (offset + 3) = 0 ∧
    tokenize_loop co nit lso jt 0 (offset :: (offset + 3) :: rest) =
      (tokenize_step co nit lso jt 0 offset).1 ++
      (tokenize_step co nit lso (tokenize_step co nit lso jt 0 offset).2.1
        ((co.co_code.getD (offset + 1) 0 +
          co.co_code.getD (offset + 2) 0 * 256) * 65536) (offset + 3)).1 ++
      tokenize_loop co nit lso
        (tokenize_step co nit lso (tokenize_step co nit lso jt 0 offset).2.1
          ((co.co_code.getD (offset + 1) 0 +
            co.co_code.getD (offset + 2) 0 * 256) * 65536) (offset + 3)).2.1
        0 rest := by
  have hEAarg : HAVE_ARGUMENT ≤ co.co_code.getD offset 0 := by
    rw [hEA]; decide
  simp only [List.getD_eq_getElem?_getD] at hEA hnextop hnotEA hEAarg
  have h1 : (mkRealToken co lso 0 offset).attr =
      some (co.co_code.getD (offset + 1) 0 +
        co.co_code.getD (offset + 2) 0 * 256) := by
    simp [mkRealToken, hEAarg, decode_arg]
  have h2 : (mkRealToken co lso 0 offset).pattr = none := by
    simp [mkRealToken, hEAarg, hEA, decode_arg, hasconst, hasname, hasjrel,
      haslocal, hascompare, hasfree, EXTENDED_ARG, HAVE_ARGUMENT]
  have h3 : next_extended co.co_code 0 offset =
      (co.co_code.getD (offset + 1) 0 +
        co.co_code.getD (offset + 2) 0 * 256) * 65536 := by
    simp [next_extended, hEAarg, hEA, decode_arg, EXTENDED_ARG, HAVE_ARGUMENT]
  have h4 : (mkRealToken co lso
      ((co.co_code.getD (offset + 1) 0 +
        co.co_code.getD (offset + 2) 0 * 256) * 65536) (offset + 3)).attr =
      some ((co.co_code.getD (offset + 4) 0 +
          co.co_code.getD (offset + 5) 0 * 256) +
        (co.co_code.getD (offset + 1) 0 +
          co.co_code.getD (offset + 2) 0 * 256) * 65536) := by
    have : offset + 3 + 1 = offset + 4 := by omega
    have h2' : offset + 3 + 2 = offset + 5 := by omega
    simp [mkRealToken, hnextop, decode_arg, this, h2']
  have h5 : next_extended co.co_code
      ((co.co_code.getD (offset + 1) 0 +
        co.co_code.getD (offset + 2) 0 * 256) * 65536) (offset + 3) = 0 := by
    simp [next_extended, hnextop, hnotEA]
  refine ⟨h1, h2, h3, h4, h5, ?_⟩
  simp only [tokenize_loop, tokenize_step_ext, h3, h5, List.append_assoc]

/-- C7 amended witness: `EXTENDED_ARG 7` followed by `CALL_FUNCTION 5`. -/
theorem extended_arg_prefix_witness :
    (mkRealToken ⟨[144, 7, 0, 131, 5, 0], [], [], [], [], [], []⟩ [] 0 0).attr
      = some 7 ∧
    (mkRealToken ⟨[144, 7, 0, 131, 5, 0], [], [], [], [], [], []⟩ []
      (7 * 65536) 3).attr = some (5 + 7 * 65536) ∧
    next_extended [144, 7, 0, 131, 5, 0] (7 * 65536) 3 = 0 := by
  have h := extended_arg_prefix ⟨[144, 7, 0, 131, 5, 0], [], [], [], [], [], []⟩
    [] [] [] 0 [] (by decide) (by decide) (by decide)
  refine ⟨by simpa using h.1, ?_, by simpa using h.2.2.2.2.1⟩
  have h4 := h.2.2.2.1
  simpa using h4

/-! ### Behaviour of the detect_structure pieces -/

theorem ds_middle_pjif_structs (code : List Nat) (lines : List LineTuple)
    (prev_op next_stmt stmts : List Nat) (st : ScanState)
    (pstart pstop start target rtarget offset : Nat) (st' : ScanState)
    (h : ds_middle_pjif code lines prev_op next_stmt stmts st pstart pstop
      start target rtarget offset = some st') :
    st'.structs = st.structs := by
  unfold ds_middle_pjif at h
  dsimp only at h
  split_ifs at h
  all_goals first
    | exact Option.noConfusion h
    | (rw [← Option.some.inj h]; rfl)

theorem ds_middle_pjit_structs (code prev_op next_stmt : List Nat)
    (st : ScanState) (target rtarget offset : Nat) (st' : ScanState)
    (h : ds_middle_pjit code prev_op next_stmt st target rtarget offset =
      some st') :
    st'.structs = st.structs := by
  unfold ds_middle_pjit at h
  dsimp only at h
  split_ifs at h
  all_goals first
    | exact Option.noConfusion h
    | (rw [← Option.some.inj h]; rfl)

theorem ds_middle_pjif_fixed (code : List Nat) (lines : List LineTuple)
    (prev_op next_stmt stmts : List Nat) (st : ScanState)
    (pstart pstop start target rtarget offset : Nat) (st' : ScanState)
    (h : ds_middle_pjif code lines prev_op next_stmt stmts st pstart pstop
      start target rtarget offset = some st') :
    ∃ v, st'.fixed_jumps = (offset, v) :: st.fixed_jumps := by
  unfold ds_middle_pjif at h
  dsimp only at h
  split_ifs at h
  all_goals first
    | exact Option.noConfusion h
    | (obtain rfl : _ = st' := Option.some.inj h; exact ⟨_, rfl⟩)

theorem ds_middle_pjit_fixed (code prev_op next_stmt : List Nat)
    (st : ScanState) (target rtarget offset : Nat) (st' : ScanState)
    (h : ds_middle_pjit code prev_op next_stmt st target rtarget offset =
      some st') :
    ∃ v, st'.fixed_jumps = (offset, v) :: st.fixed_jumps := by
  unfold ds_middle_pjit at h
  dsimp only at h
  split_ifs at h
  all_goals first
    | exact Option.noConfusion h
    | (obtain rfl : _ = st' := Option.some.inj h; exact ⟨_, rfl⟩)

theorem ds_tail_fixed (code prev_op stmts : List Nat) (st : ScanState)
    (pstart pstop start offset rtarget0 : Nat) :
    (ds_tail code prev_op stmts st pstart pstop start offset
      rtarget0).fixed_jumps = st.fixed_jumps := by
  unfold ds_tail
  dsimp only
  split_ifs <;> rfl

/-- The loop-detection short-circuit of `ds_tail` (the `return` at source
line 538): under its guard, no region is created. -/
theorem ds_tail_loop_shortcircuit (code prev_op stmts : List Nat)
    (st : ScanState) (pstart pstop start offset rtarget0 : Nat)
    (hJA : code.getD
      (prev_op.getD (rewound code prev_op stmts offset rtarget0) 0) 0 =
      JUMP_ABSOLUTE)
    (hback : get_target code
        (prev_op.getD (rewound code prev_op stmts offset rtarget0) 0) <
      prev_op.getD (rewound code prev_op stmts offset rtarget0) 0)
    (hloop : code.getD (prev_op.getD (get_target code
        (prev_op.getD (rewound code prev_op stmts offset rtarget0) 0)) 0) 0 =
      SETUP_LOOP)
    (hafter : start < get_target code
      (prev_op.getD (rewound code prev_op stmts offset rtarget0) 0)) :
    ds_tail code prev_op stmts st pstart pstop start offset rtarget0 = st := by
  unfold ds_tail
  dsimp only
  rw [if_pos (Or.inl hJA), if_pos ⟨hback, hloop, hafter⟩]

/-! ### C6: the loop short-circuit prevents if-then classification -/

/-- C6: for a `POP_JUMP_IF_FALSE` jump processed by `detect_structure` whose
parent-restricted destination (after the trailing-jump rewinding step,
`rewound`) is preceded by a `JUMP_ABSOLUTE` whose own target `if_end` is
earlier than that preceding jump's offset, whose target's preceding
instruction is a `SETUP_LOOP`, and whose target is after the construct's
start (`offset + 3`), no if-then region is appended to the region list for
this jump: every if-then region of the resulting state was already
present. -/
theorem while_loop_not_if (code : List Nat) (lines : List LineTuple)
    (prev_op next_stmt stmts : List Nat) (st : ScanState)
    (offset r1 pr if_end : Nat)
    (hop : code.getD offset 0 = POP_JUMP_IF_FALSE)
    (hr1 : r1 = rewound code prev_op stmts offset
      (restrict_to_parent (get_target code offset)
        (pick_parent st.structs offset).start
        (pick_parent st.structs offset).stop))
    (hpr : pr = prev_op.getD r1 0)
    (hie : if_end = get_target code pr)
    (hJA : code.getD pr 0 = JUMP_ABSOLUTE)
    (hback : if_end < pr)
    (hloop : code.getD (prev_op.getD if_end 0) 0 = SETUP_LOOP)
    (hafter : offset + 3 < if_end) :
    ∀ s ∈ (detect_structure code lines prev_op next_stmt stmts st
      offset).structs, s.kind = "if-then" → s ∈ st.structs := by
  subst hr1
  subst hpr
  subst hie
  intro s hs hk
  unfold detect_structure at hs
  dsimp only at hs
  rw [hop] at hs
  rw [if_pos (Or.inl rfl)] at hs
  rw [show op_size POP_JUMP_IF_FALSE = 3 from rfl] at hs
  by_cases h1 : (get_target code offset ≠ restrict_to_parent
      (get_target code offset) (pick_parent st.structs offset).start
      (pick_parent st.structs offset).stop ∧
      (pick_parent st.structs offset).kind = "and/or")
  · rw [if_pos h1] at hs
    exact hs
  · rw [if_neg h1] at hs
    by_cases h2 : ((code.getD (prev_op.getD (get_target code offset) 0) 0 =
        JUMP_IF_FALSE_OR_POP ∨
      code.getD (prev_op.getD (get_target code offset) 0) 0 =
        JUMP_IF_TRUE_OR_POP ∨
      code.getD (prev_op.getD (get_target code offset) 0) 0 =
        POP_JUMP_IF_FALSE ∨
      code.getD (prev_op.getD (get_target code offset) 0) 0 =
        POP_JUMP_IF_TRUE) ∧ offset < get_target code offset)
    · rw [if_pos h2] at hs
      rcases List.mem_append.mp hs with h | h
      · exact h
      · have := List.mem_singleton.mp h
        subst this
        simp at hk
    · rw [if_neg h2] at hs
      rw [if_pos rfl] at hs
      cases hm : ds_middle_pjif code lines prev_op next_stmt stmts st
          (pick_parent st.structs offset).start
          (pick_parent st.structs offset).stop (offset + 3)
          (get_target code offset)
          (restrict_to_parent (get_target code offset)
            (pick_parent st.structs offset).start
            (pick_parent st.structs offset).stop) offset with
      | some st' =>
        rw [hm] at hs
        rw [ds_middle_pjif_structs code lines prev_op next_stmt stmts st
          _ _ _ _ _ offset st' hm] at hs
        exact hs
      | none =>
        rw [hm] at hs
        rw [ds_tail_loop_shortcircuit code prev_op stmts st
          (pick_parent st.structs offset).start
          (pick_parent st.structs offset).stop (offset + 3) offset
          (restrict_to_parent (get_target code offset)
            (pick_parent st.structs offset).start
            (pick_parent st.structs offset).stop)
          hJA hback hloop hafter] at hs
        exact hs

def exC6code : List Nat :=
  [114, 20, 0, 0, 120, 0, 0, 0, 0, 0, 0, 0, 0, 0, 0, 0, 0, 113, 5, 0]

def exC6prev : List Nat :=
  [0, 0, 0, 0, 0, 4, 0, 0, 0, 0, 0, 0, 0, 0, 0, 0, 0, 0, 0, 0, 17]

def exC6st : ScanState := ⟨[⟨"root", 0, 30⟩], [], [], []⟩

/-- C6 witness: a `POP_JUMP_IF_FALSE` at offset 0 targeting 20, where the
instruction before the clamped target is a backward `JUMP_ABSOLUTE` to 5,
offset 5 is preceded by a `SETUP_LOOP`, and 5 is after the construct's
start 3; `detect_structure` appends nothing. -/
theorem while_loop_not_if_witness :
    (detect_structure exC6code [] exC6prev [] [] exC6st 0).structs =
      exC6st.structs ∧
    ∀ s ∈ (detect_structure exC6code [] exC6prev [] [] exC6st 0).structs,
      s.kind = "if-then" → s ∈ exC6st.structs := by
  refine ⟨by decide, ?_⟩
  exact while_loop_not_if exC6code [] exC6prev [] [] exC6st 0 20 17 5
    (by decide) (by decide) (by decide) (by decide) (by decide) (by decide)
    (by decide) (by decide)

/-! ### C10: the fixed-jumps keys and the END_FINALLY arm -/

/-- Every key of the fixed-jumps table holds one of the four conditional
jump opcodes. -/
def fjKeysOk (code : List Nat) (fj : List (Nat × Nat)) : Prop :=
  ∀ p ∈ fj, code.getD p.1 0 = JUMP_IF_FALSE_OR_POP ∨
    code.getD p.1 0 = JUMP_IF_TRUE_OR_POP ∨
    code.getD p.1 0 = POP_JUMP_IF_FALSE ∨
    code.getD p.1 0 = POP_JUMP_IF_TRUE

/-- One `detect_structure` call either leaves the fixed-jumps table alone or
prepends a single binding whose key is the current offset, and then only
when that offset holds a conditional jump opcode. -/
theorem detect_structure_fixed (code : List Nat) (lines : List LineTuple)
    (prev_op next_stmt stmts : List Nat) (st : ScanState) (offset : Nat) :
    (detect_structure code lines prev_op next_stmt stmts st
      offset).fixed_jumps = st.fixed_jumps ∨
    ((∃ v, (detect_structure code lines prev_op next_stmt stmts st
        offset).fixed_jumps = (offset, v) :: st.fixed_jumps) ∧
     (code.getD offset 0 = JUMP_IF_FALSE_OR_POP ∨
      code.getD offset 0 = JUMP_IF_TRUE_OR_POP ∨
      code.getD offset 0 = POP_JUMP_IF_FALSE ∨
      code.getD offset 0 = POP_JUMP_IF_TRUE)) := by
  unfold detect_structure
  dsimp only
  by_cases hPJ : code.getD offset 0 = POP_JUMP_IF_FALSE ∨
      code.getD offset 0 = POP_JUMP_IF_TRUE
  · have hc : code.getD offset 0 = JUMP_IF_FALSE_OR_POP ∨
        code.getD offset 0 = JUMP_IF_TRUE_OR_POP ∨
        code.getD offset 0 = POP_JUMP_IF_FALSE ∨
        code.getD offset 0 = POP_JUMP_IF_TRUE := by
      rcases hPJ with h | h
      · exact Or.inr (Or.inr (Or.inl h))
      · exact Or.inr (Or.inr (Or.inr h))
    rw [if_pos hPJ]
    by_cases h1 : (get_target code offset ≠ restrict_to_parent
        (get_target code offset) (pick_parent st.structs offset).start
        (pick_parent st.structs offset).stop ∧
        (pick_parent st.structs offset).kind = "and/or")
    · rw [if_pos h1]
      exact Or.inr ⟨⟨_, rfl⟩, hc⟩
    · rw [if_neg h1]
      by_cases h2 : ((code.getD (prev_op.getD (get_target code offset) 0) 0 =
          JUMP_IF_FALSE_OR_POP ∨
        code.getD (prev_op.getD (get_target code offset) 0) 0 =
          JUMP_IF_TRUE_OR_POP ∨
        code.getD (prev_op.getD (get_target code offset) 0) 0 =
          POP_JUMP_IF_FALSE ∨
        code.getD (prev_op.getD (get_target code offset) 0) 0 =
          POP_JUMP_IF_TRUE) ∧ offset < get_target code offset)
      · rw [if_pos h2]
        exact Or.inr ⟨⟨_, rfl⟩, hc⟩
      · rw [if_neg h2]
        by_cases hF : code.getD offset 0 = POP_JUMP_IF_FALSE
        · rw [if_pos hF]
          cases hm : ds_middle_pjif code lines prev_op next_stmt stmts st
              (pick_parent st.structs offset).start
              (pick_parent st.structs offset).stop
              (offset + op_size (code.getD offset 0))
              (get_target code offset)
              (restrict_to_parent (get_target code offset)
                (pick_parent st.structs offset).start
                (pick_parent st.structs offset).stop) offset with
          | some st' =>
            simp only [hm]
            obtain ⟨v, hv⟩ := ds_middle_pjif_fixed code lines prev_op next_stmt
              stmts st _ _ _ _ _ offset st' hm
            exact Or.inr ⟨⟨v, hv⟩, hc⟩
          | none =>
            simp only [hm]
            exact Or.inl (ds_tail_fixed code prev_op stmts st _ _ _ offset _)
        · rw [if_neg hF]
          cases hm : ds_middle_pjit code prev_op next_stmt st
              (get_target code offset)
              (restrict_to_parent (get_target code offset)
                (pick_parent st.structs offset).start
                (pick_parent st.structs offset).stop) offset with
          | some st' =>
            simp only [hm]
            obtain ⟨v, hv⟩ := ds_middle_pjit_fixed code prev_op next_stmt st
              _ _ offset st' hm
            exact Or.inr ⟨⟨v, hv⟩, hc⟩
          | none =>
            simp only [hm]
            exact Or.inl (ds_tail_fixed code prev_op stmts st _ _ _ offset _)
  · rw [if_neg hPJ]
    by_cases hOP : code.getD offset 0 = JUMP_IF_FALSE_OR_POP ∨
        code.getD offset 0 = JUMP_IF_TRUE_OR_POP
    · have hc : code.getD offset 0 = JUMP_IF_FALSE_OR_POP ∨
          code.getD offset 0 = JUMP_IF_TRUE_OR_POP ∨
          code.getD offset 0 = POP_JUMP_IF_FALSE ∨
          code.getD offset 0 = POP_JUMP_IF_TRUE := by
        rcases hOP with h | h
        · exact Or.inl h
        · exact Or.inr (Or.inl h)
      rw [if_pos hOP]
      by_cases ht : offset < get_target code offset
      · rw [if_pos ht]
        cases hu : last_instr code offset (get_target code offset)
            [JUMP_FORWARD] (some (get_target code offset)) true with
        | some u =>
          simp only [hu]
          split_ifs
          · exact Or.inr ⟨⟨_, rfl⟩, hc⟩
          · exact Or.inr ⟨⟨_, rfl⟩, hc⟩
        | none =>
          simp only [hu]
          exact Or.inr ⟨⟨_, rfl⟩, hc⟩
      · rw [if_neg ht]
        exact Or.inl rfl
    · rw [if_neg hOP]
      exact Or.inl rfl

theorem detect_structure_fjKeysOk (code : List Nat) (lines : List LineTuple)
    (prev_op next_stmt stmts : List Nat) (st : ScanState) (offset : Nat)
    (h : fjKeysOk code st.fixed_jumps) :
    fjKeysOk code (detect_structure code lines prev_op next_stmt stmts st
      offset).fixed_jumps := by
  rcases detect_structure_fixed code lines prev_op next_stmt stmts st offset
    with heq | ⟨⟨v, hv⟩, hcond⟩
  · rw [heq]; exact h
  · rw [hv]
    intro p hp
    rcases List.mem_cons.mp hp with rfl | hp
    · exact hcond
    · exact h p hp

theorem lookup_isSome_mem (l : List (Nat × Nat)) (k : Nat) :
    (List.lookup k l).isSome → ∃ v, (k, v) ∈ l := by
  induction l with
  | nil => simp [List.lookup]
  | cons hd tl ih =>
    obtain ⟨a, b⟩ := hd
    by_cases hk : k = a
    · subst hk
      intro _
      exact ⟨b, by simp⟩
    · have hka : (k == a) = false := beq_eq_false_iff_ne.mpr hk
      simp only [List.lookup, hka]
      intro h
      obtain ⟨v, hv⟩ := ih h
      exact ⟨v, List.mem_cons_of_mem _ hv⟩

theorem fjt_loop_inv (code : List Nat) (lines : List LineTuple)
    (prev_op next_stmt stmts : List Nat) :
    ∀ (offsets : List Nat) (st : ScanState) (tg : Targets),
      fjKeysOk code st.fixed_jumps →
      fjKeysOk code (fjt_loop code lines prev_op next_stmt stmts st tg
        offsets).1.fixed_jumps := by
  intro offsets
  induction offsets with
  | nil => intro st tg h; exact h
  | cons o rest ih =>
    intro st tg h
    simp only [fjt_loop]
    exact ih _ _ (detect_structure_fjKeysOk code lines prev_op next_stmt
      stmts st o h)

theorem fjt_loop_no_ef_eq (code : List Nat) (lines : List LineTuple)
    (prev_op next_stmt stmts : List Nat) :
    ∀ (offsets : List Nat) (st : ScanState) (tg : Targets),
      fjKeysOk code st.fixed_jumps →
      fjt_loop code lines prev_op next_stmt stmts st tg offsets =
      fjt_loop_no_end_finally code lines prev_op next_stmt stmts st tg
        offsets := by
  intro offsets
  induction offsets with
  | nil => intro st tg h; rfl
  | cons o rest ih =>
    intro st tg h
    have hst' := detect_structure_fjKeysOk code lines prev_op next_stmt
      stmts st o h
    simp only [fjt_loop, fjt_loop_no_end_finally]
    by_cases hop : HAVE_ARGUMENT ≤ code.getD o 0
    · rw [if_pos hop, if_pos hop]
      exact ih _ _ hst'
    · rw [if_neg hop, if_neg hop]
      have hcond : ¬ (code.getD o 0 = END_FINALLY ∧
          (List.lookup o (detect_structure code lines prev_op next_stmt
            stmts st o).fixed_jumps).isSome = true) := by
        rintro ⟨hEF, hsome⟩
        obtain ⟨v, hv⟩ := lookup_isSome_mem _ _ hsome
        have hks := hst' (o, v) hv
        rw [hEF] at hks
        revert hks
        decide
      rw [if_neg hcond]
      exact ih _ _ hst'

/-- C10: throughout the jump-target pass every key of the fixed-jumps table
is the offset of a conditional jump instruction (`POP_JUMP_IF_FALSE`,
`POP_JUMP_IF_TRUE`, `JUMP_IF_FALSE_OR_POP` or `JUMP_IF_TRUE_OR_POP`); since
`END_FINALLY` is none of these, the `END_FINALLY` arm of
`find_jump_targets` that reads the fixed-jumps table is unreachable: the
pass computes the same result as the variant with that arm deleted, for
every input. -/
theorem end_finally_arm_unreachable (code : List Nat)
    (lines : List LineTuple) (prev_op : List Nat) :
    (∀ p ∈ (find_jump_targets code lines prev_op).2.fixed_jumps,
      code.getD p.1 0 = JUMP_IF_FALSE_OR_POP ∨
      code.getD p.1 0 = JUMP_IF_TRUE_OR_POP ∨
      code.getD p.1 0 = POP_JUMP_IF_FALSE ∨
      code.getD p.1 0 = POP_JUMP_IF_TRUE) ∧
    find_jump_targets code lines prev_op =
      find_jump_targets_no_end_finally code lines prev_op := by
  have hempty : fjKeysOk code
      (ScanState.mk [⟨"root", 0, code.length - 1⟩] [] [] []).fixed_jumps := by
    intro p hp
    simp at hp
  constructor
  · intro p hp
    exact fjt_loop_inv code lines prev_op
      (build_statement_indices code lines prev_op).2
      (build_statement_indices code lines prev_op).1
      (opRange code 0 code.length)
      ⟨[⟨"root", 0, code.length - 1⟩], [], [], []⟩ [] hempty p hp
  · simp only [find_jump_targets, find_jump_targets_no_end_finally]
    rw [fjt_loop_no_ef_eq code lines prev_op
      (build_statement_indices code lines prev_op).2
      (build_statement_indices code lines prev_op).1
      (opRange code 0 code.length)
      ⟨[⟨"root", 0, code.length - 1⟩], [], [], []⟩ [] hempty]

end Uncompyle3
